import Mathlib

/-!
Verification of the GDB-GUI core: the MI-output grammar decoder
(`src/gdb/parser.rs`), the command encoder (`src/gdb/writer.rs`) and the
state reducer (`src/state/debugger_state.rs`), shallowly embedded over
`List Char` strings (ASCII MI lines; Rust byte indices coincide with
character indices on the relevant inputs).
-/

namespace Gdb

/-- Convert a Lean string literal to the `List Char` representation used
throughout the embedding. -/
def strL (s : String) : List Char := s.data

-- ─── Data model (src/state/debugger_state.rs) ────────────────────────────────

/-- `Frame` from `debugger_state.rs` (u64/u32 carried as `Nat`; the parsers
enforce the `< 2^64` / `< 2^32` bounds exactly where Rust's parse does). -/
structure Frame where
  addr : Nat
  function : List Char
  file : Option (List Char)
  line : Option Nat
deriving DecidableEq, Repr

/-- `Breakpoint` from `debugger_state.rs`. -/
structure Breakpoint where
  id : Nat
  file : List Char
  line : Nat
  enabled : Bool
deriving DecidableEq, Repr

/-- `Variable` from `debugger_state.rs`. -/
structure Variable where
  name : List Char
  value : List Char
  type_ : List Char
deriving DecidableEq, Repr

/-- `Register`: struct shape as constructed in `parser.rs`
(`crate::state::Register \x7b number, name, value \x7d`). -/
structure Register where
  number : Nat
  name : List Char
  value : List Char
deriving DecidableEq, Repr

/-- `AsmLine`: struct shape as constructed in `parser.rs`
(`crate::state::AsmLine \x7b addr, offset, inst, current \x7d`). -/
structure AsmLine where
  addr : Nat
  offset : Nat
  inst : List Char
  current : Bool
deriving DecidableEq, Repr

/-- `StopReason` from `debugger_state.rs`. -/
inductive StopReason where
  | BreakpointHit (id : Nat)
  | EndStepping
  | Signal (name : List Char)
  | Unknown
deriving DecidableEq, Repr

/-- `PauseState` from `debugger_state.rs`. -/
structure PauseState where
  thread_id : Nat
  frame : Frame
  stack : List Frame
  stop_reason : StopReason
deriving DecidableEq, Repr

/-- `ProgramState` from `debugger_state.rs`. -/
inductive ProgramState where
  | NoProgramLoaded
  | ProgramLoaded
  | Running
  | Paused
  | Exited (code : Option Int)
deriving DecidableEq, Repr

/-- `PersistentState` from `debugger_state.rs`. -/
structure PersistentState where
  executable : Option (List Char)
  breakpoints : List Breakpoint
deriving DecidableEq, Repr

/-- `DebuggerState` from `debugger_state.rs`, together with the
`registers` / `register_names` / `disasm` collections that the UI reads
(`app.rs` uses `state.registers`, `state.register_names`, `state.disasm`;
spec §3 lists them in the `DebuggerState` aggregate). -/
structure DebuggerState where
  program : ProgramState
  pause : Option PauseState
  locals : List Variable
  registers : List Register
  register_names : List (List Char)
  disasm : List AsmLine
  persistent : PersistentState
deriving DecidableEq, Repr

/-- `StateEvent` from `debugger_state.rs`; the last three variants carry the
payload shapes with which `parser.rs` constructs them
(`RegisterNamesReceived \x7b names \x7d`, `RegistersUpdated \x7b registers \x7d`,
`DisasmUpdated \x7b lines \x7d`). -/
inductive StateEvent where
  | ProgramLoaded (executable : List Char)
  | ProgramStarted
  | ProgramPaused (pause : PauseState)
  | ProgramExited (code : Option Int)
  | BreakpointAdded (breakpoint : Breakpoint)
  | BreakpointRemoved (id : Nat)
  | BreakpointToggled (id : Nat) (enabled : Bool)
  | LocalsUpdated (vars : List Variable)
  | RegisterNamesReceived (names : List (List Char))
  | RegistersUpdated (registers : List Register)
  | DisasmUpdated (lines : List AsmLine)
deriving DecidableEq, Repr

/-- `UiEvent` from `debugger_state.rs`. -/
inductive UiEvent where
  | ConsoleOutput (text : List Char)
  | GdbError (msg : List Char)
deriving DecidableEq, Repr

/-- `DebuggerEvent` from `debugger_state.rs`. -/
inductive DebuggerEvent where
  | State (e : StateEvent)
  | Ui (e : UiEvent)
deriving DecidableEq, Repr

-- ─── State reducer (src/state/debugger_state.rs) ─────────────────────────────

/-- `DebuggerState::new()`: initial state. -/
def DebuggerState.new : DebuggerState where
  program := ProgramState.NoProgramLoaded
  pause := none
  locals := []
  registers := []
  register_names := []
  disasm := []
  persistent := { executable := none, breakpoints := [] }

/-- `iter_mut().find(|b| b.id == id)` followed by `bp.enabled = enabled`:
mutates only the first breakpoint whose id matches. -/
def toggle_first (id : Nat) (enabled : Bool) : List Breakpoint → List Breakpoint
  | [] => []
  | b :: rest =>
    if b.id = id then { b with enabled := enabled } :: rest
    else b :: toggle_first id enabled rest

/-- `DebuggerState::apply`, the single mutation gate. The three
register/disassembly arms are absent from the `debugger_state.rs` snapshot.
Modelled from the spec: ("Locals/register/disassembly updates replace their
respective collections wholesale", spec §4.4; they touch no other field). -/
def DebuggerState.apply (s : DebuggerState) (event : StateEvent) : DebuggerState :=
  match event with
  | .ProgramLoaded executable =>
    { s with program := .ProgramLoaded,
             persistent := { s.persistent with executable := some executable },
             pause := none, locals := [] }
  | .ProgramStarted => { s with program := .Running, pause := none, locals := [] }
  | .ProgramPaused pause => { s with program := .Paused, pause := some pause }
  | .ProgramExited code => { s with program := .Exited code, pause := none, locals := [] }
  | .BreakpointAdded breakpoint =>
    { s with persistent :=
        { s.persistent with breakpoints := s.persistent.breakpoints ++ [breakpoint] } }
  | .BreakpointRemoved id =>
    { s with persistent :=
        { s.persistent with breakpoints := s.persistent.breakpoints.filter (fun b => b.id != id) } }
  | .BreakpointToggled id enabled =>
    { s with persistent :=
        { s.persistent with breakpoints := toggle_first id enabled s.persistent.breakpoints } }
  | .LocalsUpdated vars => { s with locals := vars }
  | .RegisterNamesReceived names => { s with register_names := names }
  | .RegistersUpdated registers => { s with registers := registers }
  | .DisasmUpdated lines => { s with disasm := lines }

/-- Left fold of `apply` over an event sequence. -/
def applyEvents (s : DebuggerState) : List StateEvent → DebuggerState
  | [] => s
  | e :: evs => applyEvents (s.apply e) evs

-- ─── String utilities (src/gdb/parser.rs) ────────────────────────────────────

/-- `str::find(&str)`: index of the first occurrence of `needle`. -/
def findSub : List Char → List Char → Option Nat
  | [], needle => if needle = [] then some 0 else none
  | c :: rest, needle =>
    if needle.isPrefixOf (c :: rest) then some 0
    else (findSub rest needle).map (· + 1)

/-- `str::contains(&str)`. -/
def containsSub (hay needle : List Char) : Bool := (findSub hay needle).isSome

/-- Loop body of `find_closing_quote`: scan with an `escaped` flag, returning
the index (relative to the start of `s` plus `i`) of the first unescaped
double quote. -/
def find_closing_quote_aux : List Char → Bool → Nat → Option Nat
  | [], _, _ => none
  | c :: rest, escaped, i =>
    if escaped then find_closing_quote_aux rest false (i + 1)
    else if c = '\\' then find_closing_quote_aux rest true (i + 1)
    else if c = '"' then some i
    else find_closing_quote_aux rest false (i + 1)

/-- `find_closing_quote` from `parser.rs`. -/
def find_closing_quote (s : List Char) : Option Nat := find_closing_quote_aux s false 0

/-- Loop body of `find_closing`: depth/quote/escape-aware scan for the
closing delimiter matching an already-open `opn` (depth starts at 1). -/
def find_closing_aux (opn cls : Char) : List Char → Nat → Bool → Bool → Nat → Option Nat
  | [], _, _, _, _ => none
  | c :: rest, depth, in_str, escaped, i =>
    if escaped then find_closing_aux opn cls rest depth in_str false (i + 1)
    else if c = '\\' then find_closing_aux opn cls rest depth in_str true (i + 1)
    else if c = '"' then find_closing_aux opn cls rest depth (!in_str) false (i + 1)
    else if in_str then find_closing_aux opn cls rest depth in_str false (i + 1)
    else if c = opn then find_closing_aux opn cls rest (depth + 1) in_str false (i + 1)
    else if c = cls then
      if depth - 1 = 0 then some i
      else find_closing_aux opn cls rest (depth - 1) in_str false (i + 1)
    else find_closing_aux opn cls rest depth in_str false (i + 1)

/-- `find_closing` from `parser.rs`. -/
def find_closing (s : List Char) (opn cls : Char) : Option Nat :=
  find_closing_aux opn cls s 1 false false 0

/-- `find_closing_brace` from `parser.rs`. -/
def find_closing_brace (s : List Char) : Option Nat := find_closing s '\x7b' '\x7d'

/-- `find_closing_bracket` from `parser.rs`. -/
def find_closing_bracket (s : List Char) : Option Nat := find_closing s '[' ']'

/-- `unescape` from `parser.rs`. -/
def unescape : List Char → List Char
  | [] => []
  | c :: rest =>
    if c = '\\' then
      match rest with
      | [] => ['\\']
      | x :: rest2 =>
        if x = '"' then '"' :: unescape rest2
        else if x = 'n' then '\n' :: unescape rest2
        else if x = 't' then '\t' :: unescape rest2
        else if x = '\\' then '\\' :: unescape rest2
        else '\\' :: x :: unescape rest2
    else c :: unescape rest

/-- `extract_str` from `parser.rs`: scalar field `key="value"`. -/
def extract_str (fields key : List Char) : Option (List Char) :=
  let needle := key ++ ['=', '"']
  match findSub fields needle with
  | none => none
  | some start =>
    let rest := fields.drop (start + needle.length)
    match find_closing_quote rest with
    | none => none
    | some e => some (unescape (rest.take e))

/-- `extract_block` from `parser.rs`: block field `key=\x7b...\x7d`. -/
def extract_block (fields key : List Char) : Option (List Char) :=
  let needle := key ++ ['=', '\x7b']
  match findSub fields needle with
  | none => none
  | some start =>
    let rest := fields.drop (start + needle.length)
    match find_closing_brace rest with
    | none => none
    | some e => some (rest.take e)

/-- `extract_list` from `parser.rs`: bracket form `key=[...]` first, then
brace form `key=\x7b...\x7d`. -/
def extract_list (fields key : List Char) : Option (List Char) :=
  let braceForm :=
    match findSub fields (key ++ ['=', '\x7b']) with
    | none => none
    | some start =>
      let rest := fields.drop (start + key.length + 2)
      match find_closing_brace rest with
      | none => none
      | some e => some (rest.take e)
  match findSub fields (key ++ ['=', '[']) with
  | none => braceForm
  | some start =>
    let rest := fields.drop (start + key.length + 2)
    match find_closing_bracket rest with
    | none => braceForm
    | some e => some (rest.take e)

/-- `split_class_fields` from `parser.rs`: split at the first comma. -/
def split_class_fields : List Char → List Char × List Char
  | [] => ([], [])
  | c :: rest =>
    if c = ',' then ([], rest)
    else
      let p := split_class_fields rest
      (c :: p.1, p.2)

/-- `str::trim()` (both ends). -/
def trimChars (s : List Char) : List Char :=
  ((s.dropWhile Char.isWhitespace).reverse.dropWhile Char.isWhitespace).reverse

/-- `unquote` from `parser.rs`. -/
def unquote (s : List Char) : Option (List Char) :=
  let t := trimChars s
  if t.head? = some '"' ∧ t.getLast? = some '"' ∧ 2 ≤ t.length then
    some (unescape ((t.drop 1).take (t.length - 2)))
  else if t.head? = some '"' then some (unescape (t.drop 1))
  else some t

/-- `strip_token` from `parser.rs`: `line.find(|c| !c.is_ascii_digit())`
yields the first non-digit index, defaulting to 0 when the whole line is
digits; the line is sliced from there. -/
def strip_token (line : List Char) : List Char :=
  if line.all Char.isDigit then line else line.dropWhile Char.isDigit

/-- Does the line begin with an ASCII digit? -/
def headIsDigit : List Char → Bool
  | [] => false
  | c :: _ => c.isDigit

-- ─── Number parsing (Rust `str::parse` / `from_str_radix`) ───────────────────

/-- Decimal digit value. -/
def digitVal (c : Char) : Nat := c.toNat - '0'.toNat

/-- `u32::from_str`: optional `+` sign, at least one decimal digit, value
within `u32` range. -/
def parse_u32 (s : List Char) : Option Nat :=
  let t := match s with
    | '+' :: r => r
    | _ => s
  if t ≠ [] ∧ t.all Char.isDigit then
    let v := t.foldl (fun a c => a * 10 + digitVal c) 0
    if v < 2 ^ 32 then some v else none
  else none

/-- ASCII hex digit test (both cases), as accepted by
`u64::from_str_radix(_, 16)`. -/
def isHexDigit (c : Char) : Bool :=
  c.isDigit || ('a' ≤ c && c ≤ 'f') || ('A' ≤ c && c ≤ 'F')

/-- Hex digit value. -/
def hexVal (c : Char) : Nat :=
  if c.isDigit then c.toNat - '0'.toNat
  else if 'a' ≤ c && c ≤ 'f' then c.toNat - 'a'.toNat + 10
  else c.toNat - 'A'.toNat + 10

/-- `str::trim_start_matches("0x")`: repeatedly strips a leading `0x`. -/
def trim_start_matches_0x : List Char → List Char
  | '0' :: 'x' :: r => trim_start_matches_0x r
  | s => s

/-- `u64::from_str_radix(_, 16)`: optional `+` sign, at least one hex digit,
value within `u64` range. -/
def parse_u64_hex (s : List Char) : Option Nat :=
  let t := match s with
    | '+' :: r => r
    | _ => s
  if t ≠ [] ∧ t.all isHexDigit then
    let v := t.foldl (fun a c => a * 16 + hexVal c) 0
    if v < 2 ^ 64 then some v else none
  else none

-- ─── Record decoding (src/gdb/parser.rs) ─────────────────────────────────────

/-- `parse_frame` from `parser.rs`. -/
def parse_frame (block : List Char) : Option Frame :=
  let addr := (((extract_str block (strL "addr")).bind
      fun s => parse_u64_hex (trim_start_matches_0x s))).getD 0
  let function := (extract_str block (strL "func")).getD (strL "??")
  let file := (extract_str block (strL "fullname")).orElse
      fun _ => extract_str block (strL "file")
  let line := (extract_str block (strL "line")).bind parse_u32
  some { addr := addr, function := function, file := file, line := line }

/-- `parse_frame_field` from `parser.rs`. -/
def parse_frame_field (fields : List Char) : Option Frame :=
  (extract_block fields (strL "frame")).bind parse_frame

/-- `parse_breakpoint_field` from `parser.rs`. -/
def parse_breakpoint_field (fields key : List Char) : Option Breakpoint :=
  match extract_block fields key with
  | none => none
  | some block =>
    let id := ((extract_str block (strL "number")).bind parse_u32).getD 0
    match (extract_str block (strL "fullname")).orElse
        (fun _ => extract_str block (strL "file")) with
    | none => none
    | some file =>
      let line := ((extract_str block (strL "line")).bind parse_u32).getD 0
      let enabled :=
        match extract_str block (strL "enabled") with
        | some s => s == strL "y"
        | none => true
      some { id := id, file := file, line := line, enabled := enabled }

/-- `parse_stop_reason` from `parser.rs`. -/
def parse_stop_reason (fields : List Char) : StopReason :=
  match extract_str fields (strL "reason") with
  | some r =>
    if r = strL "breakpoint-hit" then
      StopReason.BreakpointHit (((extract_str fields (strL "bkptno")).bind parse_u32).getD 0)
    else if r = strL "end-stepping-range" ∨ r = strL "step-over-range" then
      StopReason.EndStepping
    else if r = strL "signal-received" then
      StopReason.Signal ((extract_str fields (strL "signal-name")).getD [])
    else StopReason.Unknown
  | none => StopReason.Unknown

/-- `parse_single_variable` from `parser.rs`. -/
def parse_single_variable (block : List Char) : Option Variable :=
  match extract_str block (strL "name") with
  | none => none
  | some name =>
    let value := (extract_str block (strL "value")).getD []
    let type_ := (extract_str block (strL "type")).getD []
    if name = [] then none
    else some { name := name, value := value, type_ := type_ }

/-- The `while let Some(start) = rest.find('\x7b')` loop of
`parse_variables`. Each iteration consumes at least one character, so fuel
equal to the list length makes the fuel bound unreachable. -/
def parse_variables_loop (fuel : Nat) (rest : List Char) : List Variable :=
  match fuel with
  | 0 => []
  | fuel + 1 =>
    match rest.findIdx? (· == '\x7b') with
    | none => []
    | some start =>
      let rest := rest.drop (start + 1)
      match find_closing_brace rest with
      | none => []
      | some e =>
        let tail := parse_variables_loop fuel (rest.drop (e + 1))
        match parse_single_variable (rest.take e) with
        | some var => var :: tail
        | none => tail

/-- `parse_variables` from `parser.rs`. -/
def parse_variables (fields : List Char) : List Variable :=
  match extract_list fields (strL "variables") with
  | none => []
  | some list =>
    if list.contains '\x7b' then parse_variables_loop list.length list
    else
      match parse_single_variable list with
      | some var => [var]
      | none => []

/-- The quoted-name loop of `parse_register_names` (fuel as above). -/
def parse_register_names_loop (fuel : Nat) (rest : List Char) : List (List Char) :=
  match fuel with
  | 0 => []
  | fuel + 1 =>
    match rest.findIdx? (· == '"') with
    | none => []
    | some q =>
      let rest := rest.drop (q + 1)
      match find_closing_quote rest with
      | none => []
      | some e => rest.take e :: parse_register_names_loop fuel (rest.drop (e + 1))

/-- `parse_register_names` from `parser.rs`. -/
def parse_register_names (fields : List Char) : List (List Char) :=
  match extract_list fields (strL "register-names") with
  | none => []
  | some list => parse_register_names_loop list.length list

/-- The block loop of `parse_registers` (fuel as above). -/
def parse_registers_loop (fuel : Nat) (rest : List Char) : List Register :=
  match fuel with
  | 0 => []
  | fuel + 1 =>
    match rest.findIdx? (· == '\x7b') with
    | none => []
    | some start =>
      let rest := rest.drop (start + 1)
      match find_closing_brace rest with
      | none => []
      | some e =>
        let block := rest.take e
        let number := ((extract_str block (strL "number")).bind parse_u32).getD 0
        let value := (extract_str block (strL "value")).getD []
        { number := number, name := [], value := value } ::
          parse_registers_loop fuel (rest.drop (e + 1))

/-- `parse_registers` from `parser.rs` (the register name is left empty;
the consumer joins it via the register-name table). -/
def parse_registers (fields : List Char) : List Register :=
  match extract_list fields (strL "register-values") with
  | none => []
  | some list => parse_registers_loop list.length list

/-- The block loop of `parse_disasm` (fuel as above). -/
def parse_disasm_loop (fuel : Nat) (rest : List Char) : List AsmLine :=
  match fuel with
  | 0 => []
  | fuel + 1 =>
    match rest.findIdx? (· == '\x7b') with
    | none => []
    | some start =>
      let rest := rest.drop (start + 1)
      match find_closing_brace rest with
      | none => []
      | some e =>
        let block := rest.take e
        let addr := ((extract_str block (strL "address")).bind
            fun s => parse_u64_hex (trim_start_matches_0x s)).getD 0
        let offset := ((extract_str block (strL "offset")).bind parse_u32).getD 0
        let inst := (extract_str block (strL "inst")).getD []
        { addr := addr, offset := offset, inst := inst, current := false } ::
          parse_disasm_loop fuel (rest.drop (e + 1))

/-- `parse_disasm` from `parser.rs`. -/
def parse_disasm (fields : List Char) : List AsmLine :=
  match extract_list fields (strL "asm_insns") with
  | none => []
  | some list => parse_disasm_loop list.length list

-- ─── Line dispatch (src/gdb/parser.rs) ───────────────────────────────────────

/-- `parse_console_stream` from `parser.rs`. -/
def parse_console_stream (line : List Char) : Option DebuggerEvent :=
  (unquote (line.drop 1)).map fun text => .Ui (.ConsoleOutput text)

/-- `parse_target_stream` from `parser.rs`. -/
def parse_target_stream (line : List Char) : Option DebuggerEvent :=
  (unquote (line.drop 1)).map fun text => .Ui (.ConsoleOutput (strL "[target] " ++ text))

/-- `parse_exec_async` from `parser.rs`. -/
def parse_exec_async (line : List Char) : Option DebuggerEvent :=
  let p := split_class_fields (line.drop 1)
  let cls := p.1
  let fields := p.2
  if cls = strL "running" then some (.State .ProgramStarted)
  else if cls = strL "stopped" then
    let reason := parse_stop_reason fields
    match parse_frame_field fields with
    | none => none
    | some frame =>
      let thread_id := ((extract_str fields (strL "thread-id")).bind parse_u32).getD 1
      some (.State (.ProgramPaused
        { thread_id := thread_id, frame := frame, stack := [frame], stop_reason := reason }))
  else none

/-- `parse_notify_async` from `parser.rs`. -/
def parse_notify_async (line : List Char) : Option DebuggerEvent :=
  let p := split_class_fields (line.drop 1)
  let cls := p.1
  let fields := p.2
  if cls = strL "breakpoint-created" ∨ cls = strL "breakpoint-modified" then
    match parse_breakpoint_field fields (strL "bkpt") with
    | none => none
    | some bp => some (.State (.BreakpointAdded bp))
  else if cls = strL "breakpoint-deleted" then
    match (extract_str fields (strL "id")).bind parse_u32 with
    | none => none
    | some id => some (.State (.BreakpointRemoved id))
  else none

/-- `parse_result` from `parser.rs`; in the `done` branch each emptiness
failure falls through to the next payload check, exactly as the sequence of
Rust `if` blocks does. -/
def parse_result (line : List Char) : Option DebuggerEvent :=
  let p := split_class_fields (line.drop 1)
  let cls := p.1
  let fields := p.2
  if cls = strL "error" then
    some (.Ui (.GdbError ((extract_str fields (strL "msg")).getD (strL "GDB error"))))
  else if cls = strL "done" then
    let step5 :=
      if containsSub fields (strL "asm_insns=") then
        let lines := parse_disasm fields
        if lines = [] then none else some (DebuggerEvent.State (.DisasmUpdated lines))
      else none
    let step4 :=
      if containsSub fields (strL "register-values=") then
        let regs := parse_registers fields
        if regs = [] then step5 else some (.State (.RegistersUpdated regs))
      else step5
    let step3 :=
      if containsSub fields (strL "register-names=") then
        some (DebuggerEvent.State (.RegisterNamesReceived (parse_register_names fields)))
      else step4
    let step2 :=
      if containsSub fields (strL "variables=") then
        let vars := parse_variables fields
        if vars = [] then step3 else some (.State (.LocalsUpdated vars))
      else step3
    if containsSub fields (strL "bkpt=") then
      match parse_breakpoint_field fields (strL "bkpt") with
      | some bp => some (.State (.BreakpointAdded bp))
      | none => step2
    else step2
  else if cls = strL "running" then some (.State .ProgramStarted)
  else if cls = strL "exit" then some (.State (.ProgramExited none))
  else none

/-- `parse_line` from `parser.rs`. -/
def parse_line (line : List Char) : Option DebuggerEvent :=
  if line = strL "(gdb)" ∨ line = [] then none
  else
    let line := strip_token line
    match line.head? with
    | none => none
    | some c =>
      if c = '~' then parse_console_stream line
      else if c = '@' then parse_target_stream line
      else if c = '&' then none
      else if c = '*' then parse_exec_async line
      else if c = '=' then parse_notify_async line
      else if c = '^' then parse_result line
      else none

-- ─── Command encoding (src/ui/command.rs, src/gdb/writer.rs) ─────────────────

/-- The inbound command vocabulary. The variants up to `Raw` are declared in
`src/ui/command.rs`; `RequestRegisterNames`, `RequestRegisters` and
`RequestDisasm` are dispatched by `src/ui/app.rs` but their declaration is
absent from the snapshot. Modelled from the spec: §6 lists them in the
closed inbound vocabulary. -/
inductive Command where
  | Run
  | Continue
  | Step
  | Next
  | Finish
  | Interrupt
  | Restart
  | AddBreakpoint (file : List Char) (line : Nat)
  | RemoveBreakpoint (id : Nat)
  | ToggleBreakpoint (id : Nat) (enable : Bool)
  | LoadExecutable (path : List Char)
  | RequestLocals
  | RequestStack
  | RequestRegisterNames
  | RequestRegisters
  | RequestDisasm
  | Evaluate (expr : List Char)
  | Raw (text : List Char)
deriving DecidableEq, Repr

/-- Decimal rendering of a `Nat`, as `format!` does for `u32`. -/
def natChars (n : Nat) : List Char := (Nat.repr n).data

/-- `command_to_mi` from `writer.rs`. The arms for the three register /
disassembly queries are absent from the snapshot. Modelled from the spec:
§4.3 — register-name, register-value and disassembly queries, the latter
requesting a fixed 64-byte window around the current program counter. -/
def command_to_mi (cmd : Command) : List Char :=
  match cmd with
  | .Run => strL "-exec-run"
  | .Continue => strL "-exec-continue"
  | .Step => strL "-exec-step"
  | .Next => strL "-exec-next"
  | .Finish => strL "-exec-finish"
  | .Interrupt => strL "-exec-interrupt"
  | .Restart => strL "-exec-run"
  | .AddBreakpoint file line => strL "-break-insert " ++ file ++ ':' :: natChars line
  | .RemoveBreakpoint id => strL "-break-delete " ++ natChars id
  | .ToggleBreakpoint id enable =>
    if enable then strL "-break-enable " ++ natChars id
    else strL "-break-disable " ++ natChars id
  | .LoadExecutable path => strL "-file-exec-and-symbols " ++ path
  | .RequestLocals => strL "-stack-list-variables --all-values"
  | .RequestStack => strL "-stack-list-frames"
  | .RequestRegisterNames => strL "-data-list-register-names"
  | .RequestRegisters => strL "-data-list-register-values x"
  | .RequestDisasm => strL "-data-disassemble -s \"$pc - 32\" -e \"$pc + 32\" -- 0"
  | .Evaluate expr => strL "-data-evaluate-expression " ++ expr
  | .Raw text => text

-- ─── Scan-machine views of the two scanners (proof machinery) ────────────────

/-- Outcome of running the quote scanner over a list: either the relative
index of the first unescaped `"` or the final escape flag. -/
inductive QOut where
  | found (j : Nat)
  | ended (esc : Bool)
deriving DecidableEq, Repr

/-- Shift a found index. -/
def qshift (n : Nat) : QOut → QOut
  | .found j => .found (j + n)
  | .ended e => .ended e

/-- Total-state view of `find_closing_quote_aux`. -/
def fq_scan : List Char → Bool → QOut
  | [], esc => .ended esc
  | c :: rest, esc =>
    if esc then qshift 1 (fq_scan rest false)
    else if c = '\\' then qshift 1 (fq_scan rest true)
    else if c = '"' then .found 0
    else qshift 1 (fq_scan rest false)

/-- Outcome of running the depth scanner over a list: either the relative
index of the matching closer or the final (depth, in-string, escape) state. -/
inductive FOut where
  | found (j : Nat)
  | ended (depth : Nat) (in_str : Bool) (esc : Bool)
deriving DecidableEq, Repr

/-- Shift a found index. -/
def fshift (n : Nat) : FOut → FOut
  | .found j => .found (j + n)
  | .ended d s e => .ended d s e

/-- Total-state view of `find_closing_aux`. -/
def fc_scan (opn cls : Char) : List Char → Nat → Bool → Bool → FOut
  | [], d, s, e => .ended d s e
  | c :: rest, d, s, e =>
    if e then fshift 1 (fc_scan opn cls rest d s false)
    else if c = '\\' then fshift 1 (fc_scan opn cls rest d s true)
    else if c = '"' then fshift 1 (fc_scan opn cls rest d (!s) false)
    else if s then fshift 1 (fc_scan opn cls rest d s false)
    else if c = opn then fshift 1 (fc_scan opn cls rest (d + 1) s false)
    else if c = cls then
      if d - 1 = 0 then .found 0
      else fshift 1 (fc_scan opn cls rest (d - 1) s false)
    else fshift 1 (fc_scan opn cls rest d s false)

/-- Does `needle` occur in `l` at position `k`? -/
def occursAt (needle l : List Char) (k : Nat) : Bool := needle.isPrefixOf (l.drop k)

/-- Did the depth scanner find its closer? -/
def isFound : FOut → Bool
  | .found _ => true
  | .ended _ _ _ => false

/-- An inert same-length replacement value: a run of `x`. -/
def inertOf (w : List Char) : List Char := List.replicate w.length 'x'

/-- A fields string holding the double-quoted value `w` between `pre` and
`post` (the quotes themselves sit between them). -/
def fieldsWith (pre w post : List Char) : List Char := pre ++ '"' :: (w ++ '"' :: post)

-- ═══ Theorems ════════════════════════════════════════════════════════════════

-- ─── State reducer lemmas ────────────────────────────────────────────────────

/-- One `apply` step preserves the pause/phase coupling. -/
theorem pause_inv_step (s : DebuggerState) (e : StateEvent)
    (h : s.pause.isSome = true ↔ s.program = ProgramState.Paused) :
    (s.apply e).pause.isSome = true ↔ (s.apply e).program = ProgramState.Paused := by
  cases e <;> simp [DebuggerState.apply] <;> exact h

/-- `applyEvents` preserves the pause/phase coupling. -/
theorem pause_inv_applyEvents (evs : List StateEvent) :
    ∀ s : DebuggerState,
      (s.pause.isSome = true ↔ s.program = ProgramState.Paused) →
      ((applyEvents s evs).pause.isSome = true ↔
        (applyEvents s evs).program = ProgramState.Paused) := by
  induction evs with
  | nil => intro s h; exact h
  | cons e evs ih => intro s h; exact ih (s.apply e) (pause_inv_step s e h)

/-- Breakpoint events and collection updates never change the phase or the
pause field. -/
theorem apply_preserves_phase (s : DebuggerState) :
    (∀ bp, ((s.apply (.BreakpointAdded bp)).program = s.program ∧
            (s.apply (.BreakpointAdded bp)).pause = s.pause)) ∧
    (∀ id, ((s.apply (.BreakpointRemoved id)).program = s.program ∧
            (s.apply (.BreakpointRemoved id)).pause = s.pause)) ∧
    (∀ id en, ((s.apply (.BreakpointToggled id en)).program = s.program ∧
               (s.apply (.BreakpointToggled id en)).pause = s.pause)) := by
  refine ⟨fun bp => ⟨rfl, rfl⟩, fun id => ⟨rfl, rfl⟩, fun id en => ⟨rfl, rfl⟩⟩

/-- C2: starting from `DebuggerState::new()`, after any event sequence
`pause` is `Some` iff the phase is `Paused`; the phase-setting events
`ProgramLoaded` / `ProgramStarted` / `ProgramExited` clear `pause`, and
`ProgramPaused` sets the `Paused` phase together with a `Some` pause. -/
theorem pause_iff_paused_invariant :
    (∀ evs : List StateEvent,
      ((applyEvents DebuggerState.new evs).pause.isSome = true ↔
        (applyEvents DebuggerState.new evs).program = ProgramState.Paused))
    ∧ (∀ (s : DebuggerState) x, (s.apply (.ProgramLoaded x)).pause = none ∧
        (s.apply (.ProgramLoaded x)).program = ProgramState.ProgramLoaded)
    ∧ (∀ s : DebuggerState, (s.apply .ProgramStarted).pause = none ∧
        (s.apply .ProgramStarted).program = ProgramState.Running)
    ∧ (∀ (s : DebuggerState) c, (s.apply (.ProgramExited c)).pause = none ∧
        (s.apply (.ProgramExited c)).program = ProgramState.Exited c)
    ∧ (∀ (s : DebuggerState) p, (s.apply (.ProgramPaused p)).pause = some p ∧
        (s.apply (.ProgramPaused p)).program = ProgramState.Paused) := by
  refine ⟨fun evs => pause_inv_applyEvents evs DebuggerState.new (by simp [DebuggerState.new]),
    fun s x => ⟨rfl, rfl⟩, fun s => ⟨rfl, rfl⟩, fun s c => ⟨rfl, rfl⟩, fun s p => ⟨rfl, rfl⟩⟩

/-- C1 (bug exhibit): both the `breakpoint-created` and the
`breakpoint-modified` record classes decode to `BreakpointAdded` for
breakpoint number 1, and applying the two events in sequence leaves two
entries with id 1 in `persistent.breakpoints` — the id list `[1, 1]` is not
duplicate-free, violating the uniqueness invariant. -/
theorem breakpoint_duplicate_id_bug :
    parse_line (strL "=breakpoint-created,bkpt=\x7bnumber=\"1\",file=\"main.c\",line=\"10\",enabled=\"y\"\x7d")
      = some (.State (.BreakpointAdded ⟨1, strL "main.c", 10, true⟩))
    ∧ parse_line (strL "=breakpoint-modified,bkpt=\x7bnumber=\"1\",file=\"main.c\",line=\"10\",enabled=\"n\"\x7d")
      = some (.State (.BreakpointAdded ⟨1, strL "main.c", 10, false⟩))
    ∧ ((applyEvents DebuggerState.new
          [.BreakpointAdded ⟨1, strL "main.c", 10, true⟩,
           .BreakpointAdded ⟨1, strL "main.c", 10, false⟩]).persistent.breakpoints.map
            Breakpoint.id = [1, 1])
    ∧ ¬ ((applyEvents DebuggerState.new
          [.BreakpointAdded ⟨1, strL "main.c", 10, true⟩,
           .BreakpointAdded ⟨1, strL "main.c", 10, false⟩]).persistent.breakpoints.map
            Breakpoint.id).Nodup := by
  refine ⟨by decide, by decide, by decide, by decide⟩

/-- C3: the canonical breakpoint-hit stop record decodes to `ProgramPaused`
with stop reason `BreakpointHit 3`, thread 2, and a frame taking `fullname`
over `file`, address `0x4005f6` and line 10 (the one-frame stack is the
frame itself). -/
theorem stopped_record_decodes :
    parse_line (strL "*stopped,reason=\"breakpoint-hit\",bkptno=\"3\",thread-id=\"2\",frame=\x7baddr=\"0x4005f6\",func=\"main\",file=\"main.c\",fullname=\"/a/main.c\",line=\"10\"\x7d")
      = some (.State (.ProgramPaused
          { thread_id := 2,
            frame := { addr := 0x4005f6, function := strL "main",
                       file := some (strL "/a/main.c"), line := some 10 },
            stack := [{ addr := 0x4005f6, function := strL "main",
                        file := some (strL "/a/main.c"), line := some 10 }],
            stop_reason := .BreakpointHit 3 })) := by
  decide

/-- C5: `command_to_mi` is total on the closed vocabulary by construction;
`Restart` re-issues run, `Raw` passes through unchanged, `AddBreakpoint`
renders `-break-insert file:line`, and `ToggleBreakpoint` picks
`-break-enable` / `-break-disable` by the flag. -/
theorem command_to_mi_spec :
    command_to_mi .Restart = command_to_mi .Run
    ∧ (∀ s, command_to_mi (.Raw s) = s)
    ∧ (∀ f l, command_to_mi (.AddBreakpoint f l) = strL "-break-insert " ++ f ++ ':' :: natChars l)
    ∧ (∀ id, command_to_mi (.ToggleBreakpoint id true) = strL "-break-enable " ++ natChars id)
    ∧ (∀ id, command_to_mi (.ToggleBreakpoint id false) = strL "-break-disable " ++ natChars id) := by
  exact ⟨rfl, fun s => rfl, fun f l => rfl, fun id => rfl, fun id => rfl⟩

/-- `toggle_first` is the identity when no entry matches the id. -/
theorem toggle_first_eq_self (id : Nat) (en : Bool) :
    ∀ l : List Breakpoint, (∀ b ∈ l, b.id ≠ id) → toggle_first id en l = l := by
  intro l
  induction l with
  | nil => intro _; rfl
  | cons b rest ih =>
    intro h
    have hb : b.id ≠ id := h b (List.mem_cons_self b rest)
    simp only [toggle_first, if_neg hb]
    exact congrArg (b :: ·) (ih fun x hx => h x (List.mem_cons_of_mem b hx))

/-- C8: `=breakpoint-deleted,id="5"` decodes to `BreakpointRemoved 5`;
removal filters exactly the matching ids and touches nothing else
(membership characterization plus a whole-record equation), removal of an
absent id is a no-op, and so is toggling an absent id. -/
theorem breakpoint_removal_spec :
    parse_line (strL "=breakpoint-deleted,id=\"5\"") = some (.State (.BreakpointRemoved 5))
    ∧ (∀ (s : DebuggerState) id, s.apply (.BreakpointRemoved id) =
        { s with persistent := { s.persistent with
            breakpoints := s.persistent.breakpoints.filter (fun b => b.id != id) } })
    ∧ (∀ (s : DebuggerState) id b,
        b ∈ (s.apply (.BreakpointRemoved id)).persistent.breakpoints ↔
          b ∈ s.persistent.breakpoints ∧ b.id ≠ id)
    ∧ (∀ (s : DebuggerState) id, (∀ b ∈ s.persistent.breakpoints, b.id ≠ id) →
        s.apply (.BreakpointRemoved id) = s)
    ∧ (∀ (s : DebuggerState) id en, (∀ b ∈ s.persistent.breakpoints, b.id ≠ id) →
        s.apply (.BreakpointToggled id en) = s) := by
  refine ⟨by decide, fun s id => rfl, ?_, ?_, ?_⟩
  · intro s id b
    simp [DebuggerState.apply, List.mem_filter]
  · intro s id h
    have hf : s.persistent.breakpoints.filter (fun b => b.id != id) =
        s.persistent.breakpoints :=
      List.filter_eq_self.mpr fun a ha => by simpa using h a ha
    show { s with persistent := { s.persistent with
        breakpoints := s.persistent.breakpoints.filter (fun b => b.id != id) } } = s
    rw [hf]
  · intro s id en h
    show { s with persistent := { s.persistent with
        breakpoints := toggle_first id en s.persistent.breakpoints } } = s
    rw [toggle_first_eq_self id en s.persistent.breakpoints h]

/-- Witness for C8 at a concrete state holding breakpoints 5 and 7:
removing the absent id 9 and toggling the absent id 9 change nothing. -/
theorem breakpoint_removal_spec_witness :
    (DebuggerState.mk ProgramState.NoProgramLoaded none [] [] [] []
        ⟨none, [⟨5, strL "a.c", 1, true⟩, ⟨7, strL "a.c", 2, true⟩]⟩).apply
        (.BreakpointRemoved 9) =
      DebuggerState.mk ProgramState.NoProgramLoaded none [] [] [] []
        ⟨none, [⟨5, strL "a.c", 1, true⟩, ⟨7, strL "a.c", 2, true⟩]⟩
    ∧ (DebuggerState.mk ProgramState.NoProgramLoaded none [] [] [] []
        ⟨none, [⟨5, strL "a.c", 1, true⟩, ⟨7, strL "a.c", 2, true⟩]⟩).apply
        (.BreakpointToggled 9 false) =
      DebuggerState.mk ProgramState.NoProgramLoaded none [] [] [] []
        ⟨none, [⟨5, strL "a.c", 1, true⟩, ⟨7, strL "a.c", 2, true⟩]⟩ := by
  exact ⟨breakpoint_removal_spec.2.2.2.1 _ 9 (by decide),
    breakpoint_removal_spec.2.2.2.2 _ 9 false (by decide)⟩

-- ─── Token stripping (C9) ────────────────────────────────────────────────────

/-- The head of a `dropWhile` result fails the predicate. -/
theorem dropWhile_head_false (p : Char → Bool) :
    ∀ (l : List Char) (c : Char) (rest : List Char),
      l.dropWhile p = c :: rest → p c = false := by
  intro l
  induction l with
  | nil => intro c rest h; simp [List.dropWhile] at h
  | cons a t ih =>
    intro c rest h
    by_cases hp : p a
    · rw [List.dropWhile_cons_of_pos hp] at h
      exact ih c rest h
    · rw [List.dropWhile_cons_of_neg hp] at h
      cases h
      exact Bool.of_not_eq_true hp

/-- Dropping a predicate-satisfying prefix passes through an append. -/
theorem dropWhile_all_append (p : Char → Bool) :
    ∀ (ds rest : List Char), ds.all p = true →
      (ds ++ rest).dropWhile p = rest.dropWhile p := by
  intro ds
  induction ds with
  | nil => intro rest _; rfl
  | cons d t ih =>
    intro rest h
    rw [List.all_cons, Bool.and_eq_true] at h
    rw [List.cons_append, List.dropWhile_cons_of_pos h.1]
    exact ih rest h.2

/-- A list whose head fails the predicate is unchanged by `dropWhile`. -/
theorem dropWhile_head_neg (p : Char → Bool) (l : List Char)
    (h : ∀ c rest, l = c :: rest → p c = false) : l.dropWhile p = l := by
  cases l with
  | nil => rfl
  | cons c rest => exact List.dropWhile_cons_of_neg (by simp [h c rest rfl])

/-- `strip_token` of a line with a non-digit head is the line itself. -/
theorem strip_token_nodigit (l : List Char) (h : headIsDigit l = false) :
    strip_token l = l := by
  cases l with
  | nil => rfl
  | cons c rest =>
    have hc : c.isDigit = false := h
    unfold strip_token
    rw [if_neg, List.dropWhile_cons_of_neg (by simp [hc])]
    simp [List.all_cons, hc]

/-- On a non-prompt, non-empty line with no leading digit, `parse_line` is
the sigil dispatch itself. -/
theorem parse_line_dispatch (l : List Char) (h1 : l ≠ strL "(gdb)") (h2 : l ≠ [])
    (h3 : headIsDigit l = false) :
    parse_line l =
      (match l.head? with
        | none => none
        | some c =>
          if c = '~' then parse_console_stream l
          else if c = '@' then parse_target_stream l
          else if c = '&' then none
          else if c = '*' then parse_exec_async l
          else if c = '=' then parse_notify_async l
          else if c = '^' then parse_result l
          else none) := by
  rw [parse_line, if_neg (by push_neg; exact ⟨h1, h2⟩)]
  rw [strip_token_nodigit l h3]

/-- C9: `strip_token` is idempotent; it is the identity on lines that do not
begin with a digit; and `parse_line` treats a digit-token-prefixed line like
the same line without the prefix. -/
theorem strip_token_spec :
    (∀ l, strip_token (strip_token l) = strip_token l)
    ∧ (∀ l, headIsDigit l = false → strip_token l = l)
    ∧ (∀ ds rest, ds ≠ [] → ds.all Char.isDigit = true → headIsDigit rest = false →
        parse_line (ds ++ rest) = parse_line rest) := by
  refine ⟨?_, strip_token_nodigit, ?_⟩
  · intro l
    by_cases h : l.all Char.isDigit
    · simp [strip_token, h]
    · have hl : strip_token l = l.dropWhile Char.isDigit := by
        rw [strip_token, if_neg h]
      rw [hl]
      cases hc : l.dropWhile Char.isDigit with
      | nil => rfl
      | cons c rest =>
        have hdc : Char.isDigit c = false := dropWhile_head_false _ l c rest hc
        exact strip_token_nodigit (c :: rest) hdc
  · intro ds rest hne hall hrest
    have hds_head : ∀ c t, ds = c :: t → c.isDigit = true := by
      intro c t hdst
      subst hdst
      rw [List.all_cons, Bool.and_eq_true] at hall
      exact hall.1
    have hne2 : ds ++ rest ≠ [] := fun hc => hne (List.append_eq_nil.mp hc).1
    have hgdb2 : ds ++ rest ≠ strL "(gdb)" := by
      cases ds with
      | nil => exact absurd rfl hne
      | cons c t =>
        intro hc
        rw [List.cons_append] at hc
        have h1 : c = '(' := by
          have h := congrArg List.head? hc
          rw [List.head?_cons] at h
          exact Option.some.inj (h.trans rfl)
        have h2 : c.isDigit = true := hds_head c t rfl
        rw [h1] at h2
        exact absurd h2 (by decide)
    cases rest with
    | nil =>
      rw [List.append_nil]
      show parse_line ds = parse_line []
      have hrhs : parse_line [] = none := by rw [parse_line, if_pos (Or.inr rfl)]
      rw [hrhs, parse_line,
        if_neg (by push_neg; exact ⟨by simpa using hgdb2, hne⟩)]
      rw [strip_token, if_pos hall]
      cases ds with
      | nil => exact absurd rfl hne
      | cons c t =>
        have hcd : c.isDigit = true := hds_head c t rfl
        have hsig : ∀ x : Char, x.isDigit = false → c ≠ x := by
          intro x hx hc2
          rw [hc2] at hcd
          rw [hcd] at hx
          exact Bool.noConfusion hx
        simp only [List.head?_cons]
        simp [hsig '~' (by decide), hsig '@' (by decide), hsig '&' (by decide),
          hsig '*' (by decide), hsig '=' (by decide), hsig '^' (by decide)]
    | cons r rs =>
      have hrd : r.isDigit = false := hrest
      have hstrip : strip_token (ds ++ r :: rs) = r :: rs := by
        rw [strip_token, if_neg]
        · rw [dropWhile_all_append _ ds (r :: rs) hall]
          exact List.dropWhile_cons_of_neg (by simp [hrd])
        · intro hcall
          rw [List.all_append, Bool.and_eq_true] at hcall
          have h2 := hcall.2
          rw [List.all_cons, Bool.and_eq_true] at h2
          rw [hrd] at h2
          exact Bool.noConfusion h2.1
      rw [parse_line, if_neg (by push_neg; exact ⟨hgdb2, hne2⟩)]
      rw [hstrip]
      by_cases hgdb : r :: rs = strL "(gdb)"
      · rw [hgdb]
        decide
      · rw [parse_line_dispatch (r :: rs) hgdb (List.cons_ne_nil r rs) hrest]

/-- Witness for C9: stripping the token `42` off a result record decodes it
identically, and a line with a non-digit head is untouched. -/
theorem strip_token_spec_witness :
    strip_token (strL "~text") = strL "~text"
    ∧ parse_line (strL "42" ++ strL "^exit") = parse_line (strL "^exit") :=
  ⟨strip_token_spec.2.1 (strL "~text") (by decide),
   strip_token_spec.2.2 (strL "42") (strL "^exit") (by decide) (by decide) (by decide)⟩

-- ─── Exec-async decoding (C6) ────────────────────────────────────────────────

/-- `split_class_fields` splits a comma-free class off the fields tail. -/
theorem split_class_fields_append (cls fields : List Char) (h : ',' ∉ cls) :
    split_class_fields (cls ++ ',' :: fields) = (cls, fields) := by
  induction cls with
  | nil => simp [split_class_fields]
  | cons c t ih =>
    have hc : ¬(c = ',') := fun hcc => h (hcc ▸ List.mem_cons_self c t)
    rw [List.cons_append]
    simp [split_class_fields, hc, ih fun hm => h (List.mem_cons_of_mem c hm)]

/-- A line starting with a non-digit, non-`(` character is neither empty nor
the prompt, so `parse_line` dispatches on its head. -/
theorem parse_line_cons_dispatch (c : Char) (xs : List Char)
    (hdig : c.isDigit = false) (hpar : c ≠ '(') :
    parse_line (c :: xs) =
      (if c = '~' then parse_console_stream (c :: xs)
       else if c = '@' then parse_target_stream (c :: xs)
       else if c = '&' then none
       else if c = '*' then parse_exec_async (c :: xs)
       else if c = '=' then parse_notify_async (c :: xs)
       else if c = '^' then parse_result (c :: xs)
       else none) := by
  rw [parse_line_dispatch (c :: xs) ?hg (List.cons_ne_nil c xs) hdig]
  · rw [List.head?_cons]
  case hg =>
    intro h
    have hh := congrArg List.head? h
    rw [List.head?_cons] at hh
    exact hpar (Option.some.inj (hh.trans rfl))

/-- C6: a `*stopped` record without a closed `frame=\x7b...\x7d` block yields no
event at all, while stop-reason resolution never fails: an absent `reason`
maps to `Unknown`, and so does any unrecognized reason string. -/
theorem stopped_frame_and_reason_spec :
    (∀ fields, extract_block fields (strL "frame") = none →
      parse_line ('*' :: (strL "stopped," ++ fields)) = none)
    ∧ (∀ fields, extract_str fields (strL "reason") = none →
        parse_stop_reason fields = .Unknown)
    ∧ (∀ fields r, extract_str fields (strL "reason") = some r →
        r ≠ strL "breakpoint-hit" → r ≠ strL "end-stepping-range" →
        r ≠ strL "step-over-range" → r ≠ strL "signal-received" →
        parse_stop_reason fields = .Unknown) := by
  refine ⟨?_, ?_, ?_⟩
  · intro fields h
    rw [parse_line_cons_dispatch '*' (strL "stopped," ++ fields) (by decide) (by decide)]
    show parse_exec_async ('*' :: (strL "stopped," ++ fields)) = none
    rw [show strL "stopped," ++ fields = strL "stopped" ++ ',' :: fields from rfl]
    simp only [parse_exec_async, List.drop_succ_cons, List.drop_zero,
      split_class_fields_append (strL "stopped") fields (by decide)]
    simp [parse_frame_field, h]
    decide
  · intro fields h
    simp [parse_stop_reason, h]
  · intro fields r hr h1 h2 h3 h4
    simp [parse_stop_reason, hr, h1, h2, h3, h4]

/-- Witness for C6 at concrete records: a frameless stop yields no event and
both an absent and an unknown reason resolve to `Unknown`. -/
theorem stopped_frame_and_reason_spec_witness :
    parse_line ('*' :: (strL "stopped," ++ strL "reason=\"signal-received\",signal-name=\"SIGINT\"")) = none
    ∧ parse_stop_reason (strL "signal=\"2\"") = .Unknown
    ∧ parse_stop_reason (strL "reason=\"watchpoint-trigger\"") = .Unknown :=
  ⟨stopped_frame_and_reason_spec.1 _ (by decide),
   stopped_frame_and_reason_spec.2.1 _ (by decide),
   stopped_frame_and_reason_spec.2.2 _ (strL "watchpoint-trigger") (by decide)
     (by decide) (by decide) (by decide) (by decide)⟩

-- ─── Breakpoint block decoding (C10) ─────────────────────────────────────────

/-- C10: a breakpoint block with neither `fullname` nor `file` is discarded
whole; with a file present the record is produced with `number`/`line`
defaulting to 0 when absent or unparseable, and `enabled` is true exactly
when the field is absent or equals `y`. -/
theorem breakpoint_block_defaults (fields block : List Char)
    (hb : extract_block fields (strL "bkpt") = some block) :
    (extract_str block (strL "fullname") = none → extract_str block (strL "file") = none →
      parse_breakpoint_field fields (strL "bkpt") = none)
    ∧ (∀ f, (extract_str block (strL "fullname")).orElse
          (fun _ => extract_str block (strL "file")) = some f →
        ∃ bp, parse_breakpoint_field fields (strL "bkpt") = some bp ∧ bp.file = f)
    ∧ (∀ bp, parse_breakpoint_field fields (strL "bkpt") = some bp →
        (extract_str block (strL "number")).bind parse_u32 = none → bp.id = 0)
    ∧ (∀ bp, parse_breakpoint_field fields (strL "bkpt") = some bp →
        (extract_str block (strL "line")).bind parse_u32 = none → bp.line = 0)
    ∧ (∀ bp, parse_breakpoint_field fields (strL "bkpt") = some bp →
        (bp.enabled = true ↔ (extract_str block (strL "enabled") = none ∨
          extract_str block (strL "enabled") = some ['y']))) := by
  refine ⟨?_, ?_, ?_, ?_, ?_⟩
  · intro h1 h2
    simp [parse_breakpoint_field, hb, h1, h2, Option.orElse]
  · intro f hf
    simp only [parse_breakpoint_field, hb, hf]
    exact ⟨_, rfl, rfl⟩
  · intro bp hbp hnum
    rw [parse_breakpoint_field, hb] at hbp
    cases horel : (extract_str block (strL "fullname")).orElse
        (fun _ => extract_str block (strL "file")) with
    | none => simp [horel] at hbp
    | some f =>
      simp only [horel, hnum] at hbp
      cases hbp
      rfl
  · intro bp hbp hline
    rw [parse_breakpoint_field, hb] at hbp
    cases horel : (extract_str block (strL "fullname")).orElse
        (fun _ => extract_str block (strL "file")) with
    | none => simp [horel] at hbp
    | some f =>
      simp only [horel, hline] at hbp
      cases hbp
      rfl
  · intro bp hbp
    rw [parse_breakpoint_field, hb] at hbp
    cases horel : (extract_str block (strL "fullname")).orElse
        (fun _ => extract_str block (strL "file")) with
    | none => simp [horel] at hbp
    | some f =>
      simp only [horel] at hbp
      cases hen : extract_str block (strL "enabled") with
      | none =>
        simp only [hen] at hbp
        cases hbp
        simp
      | some s =>
        simp only [hen] at hbp
        cases hbp
        constructor
        · intro hs
          right
          have : s = strL "y" := by simpa using hs
          rw [this]
          rfl
        · intro hs
          rcases hs with hs | hs
          · exact Option.noConfusion hs
          · have : s = ['y'] := Option.some.inj hs
            simp [this, strL]

/-- Witness for C10: a block with neither `fullname` nor `file` is dropped,
and on a block with only `fullname` the decoded record (computed by the
second clause, with id and line defaulted) has `enabled = true` because the
`enabled` field is absent. -/
theorem breakpoint_block_defaults_witness :
    parse_breakpoint_field (strL "bkpt=\x7bnumber=\"4\"\x7d") (strL "bkpt") = none
    ∧ (Breakpoint.mk 0 (strL "/a.c") 0 true).enabled = true :=
  ⟨(breakpoint_block_defaults (strL "bkpt=\x7bnumber=\"4\"\x7d")
      (strL "number=\"4\"") (by decide)).1 (by decide) (by decide),
   ((breakpoint_block_defaults (strL "bkpt=\x7bfullname=\"/a.c\"\x7d")
      (strL "fullname=\"/a.c\"") (by decide)).2.2.2.2
      (Breakpoint.mk 0 (strL "/a.c") 0 true) (by decide)).mpr (Or.inl (by decide))⟩

-- ─── Result-record payload priority (C4) ─────────────────────────────────────

/-- `parse_line` on a `^done` record reduces to the payload cascade of
`parse_result`. -/
theorem parse_result_done_unfold (fields : List Char) :
    parse_line ('^' :: (strL "done," ++ fields)) =
      (let step5 :=
        if containsSub fields (strL "asm_insns=") then
          let lines := parse_disasm fields
          if lines = [] then none else some (DebuggerEvent.State (.DisasmUpdated lines))
        else none
      let step4 :=
        if containsSub fields (strL "register-values=") then
          let regs := parse_registers fields
          if regs = [] then step5 else some (.State (.RegistersUpdated regs))
        else step5
      let step3 :=
        if containsSub fields (strL "register-names=") then
          some (DebuggerEvent.State (.RegisterNamesReceived (parse_register_names fields)))
        else step4
      let step2 :=
        if containsSub fields (strL "variables=") then
          let vars := parse_variables fields
          if vars = [] then step3 else some (.State (.LocalsUpdated vars))
        else step3
      if containsSub fields (strL "bkpt=") then
        match parse_breakpoint_field fields (strL "bkpt") with
        | some bp => some (.State (.BreakpointAdded bp))
        | none => step2
      else step2) := by
  rw [parse_line_cons_dispatch '^' (strL "done," ++ fields) (by decide) (by decide)]
  show parse_result ('^' :: (strL "done," ++ fields)) = _
  rw [show strL "done," ++ fields = strL "done" ++ ',' :: fields from rfl]
  simp only [parse_result, List.drop_succ_cons, List.drop_zero,
    split_class_fields_append (strL "done") fields (by decide)]
  simp only [if_true]
  rfl

/-- C4: on a `^done` record, the emitted event follows the fixed payload
priority breakpoint block → variables → register-names → register-values →
asm_insns; the emptiness-checked payloads fall through when their decoded
list is empty, and a `^done` with no payload yields no event. -/
theorem done_payload_priority (fields : List Char) :
    (∀ bp, containsSub fields (strL "bkpt=") = true →
      parse_breakpoint_field fields (strL "bkpt") = some bp →
      parse_line ('^' :: (strL "done," ++ fields)) = some (.State (.BreakpointAdded bp)))
    ∧ ((containsSub fields (strL "bkpt=") = false ∨
          parse_breakpoint_field fields (strL "bkpt") = none) →
        containsSub fields (strL "variables=") = true → parse_variables fields ≠ [] →
        parse_line ('^' :: (strL "done," ++ fields)) =
          some (.State (.LocalsUpdated (parse_variables fields))))
    ∧ ((containsSub fields (strL "bkpt=") = false ∨
          parse_breakpoint_field fields (strL "bkpt") = none) →
        (containsSub fields (strL "variables=") = false ∨ parse_variables fields = []) →
        containsSub fields (strL "register-names=") = true →
        parse_line ('^' :: (strL "done," ++ fields)) =
          some (.State (.RegisterNamesReceived (parse_register_names fields))))
    ∧ ((containsSub fields (strL "bkpt=") = false ∨
          parse_breakpoint_field fields (strL "bkpt") = none) →
        (containsSub fields (strL "variables=") = false ∨ parse_variables fields = []) →
        containsSub fields (strL "register-names=") = false →
        containsSub fields (strL "register-values=") = true → parse_registers fields ≠ [] →
        parse_line ('^' :: (strL "done," ++ fields)) =
          some (.State (.RegistersUpdated (parse_registers fields))))
    ∧ ((containsSub fields (strL "bkpt=") = false ∨
          parse_breakpoint_field fields (strL "bkpt") = none) →
        (containsSub fields (strL "variables=") = false ∨ parse_variables fields = []) →
        containsSub fields (strL "register-names=") = false →
        (containsSub fields (strL "register-values=") = false ∨ parse_registers fields = []) →
        containsSub fields (strL "asm_insns=") = true → parse_disasm fields ≠ [] →
        parse_line ('^' :: (strL "done," ++ fields)) =
          some (.State (.DisasmUpdated (parse_disasm fields))))
    ∧ ((containsSub fields (strL "bkpt=") = false ∨
          parse_breakpoint_field fields (strL "bkpt") = none) →
        (containsSub fields (strL "variables=") = false ∨ parse_variables fields = []) →
        containsSub fields (strL "register-names=") = false →
        (containsSub fields (strL "register-values=") = false ∨ parse_registers fields = []) →
        (containsSub fields (strL "asm_insns=") = false ∨ parse_disasm fields = []) →
        parse_line ('^' :: (strL "done," ++ fields)) = none) := by
  refine ⟨?_, ?_, ?_, ?_, ?_, ?_⟩
  · intro bp h1 h2
    rw [parse_result_done_unfold]
    simp [h1, h2]
  · intro h1 h2 h3
    rw [parse_result_done_unfold]
    rcases h1 with h1 | h1 <;> simp [h1, h2, h3]
  · intro h1 h2 h3
    rw [parse_result_done_unfold]
    rcases h1 with h1 | h1 <;> rcases h2 with h2 | h2 <;> simp [h1, h2, h3]
  · intro h1 h2 h3 h4 h5
    rw [parse_result_done_unfold]
    rcases h1 with h1 | h1 <;> rcases h2 with h2 | h2 <;> simp [h1, h2, h3, h4, h5]
  · intro h1 h2 h3 h4 h5 h6
    rw [parse_result_done_unfold]
    rcases h1 with h1 | h1 <;> rcases h2 with h2 | h2 <;> rcases h4 with h4 | h4 <;>
      simp [h1, h2, h3, h4, h5, h6]
  · intro h1 h2 h3 h4 h5
    rw [parse_result_done_unfold]
    rcases h1 with h1 | h1 <;> rcases h2 with h2 | h2 <;> rcases h4 with h4 | h4 <;>
      rcases h5 with h5 | h5 <;> simp [h1, h2, h3, h4, h5]

/-- Witness for C4: a `^done` with a breakpoint payload emits
`BreakpointAdded`; a `^done` with an unrelated scalar payload emits
nothing. -/
theorem done_payload_priority_witness :
    parse_line ('^' :: (strL "done," ++ strL "bkpt=\x7bnumber=\"2\",file=\"m.c\",line=\"3\",enabled=\"y\"\x7d"))
      = some (.State (.BreakpointAdded ⟨2, strL "m.c", 3, true⟩))
    ∧ parse_line ('^' :: (strL "done," ++ strL "value=\"7\"")) = none :=
  ⟨(done_payload_priority (strL "bkpt=\x7bnumber=\"2\",file=\"m.c\",line=\"3\",enabled=\"y\"\x7d")).1
      ⟨2, strL "m.c", 3, true⟩ (by decide) (by decide),
   (done_payload_priority (strL "value=\"7\"")).2.2.2.2.2
      (Or.inl (by decide)) (Or.inl (by decide)) (by decide)
      (Or.inl (by decide)) (Or.inl (by decide))⟩

-- ─── Scanner bridges and composition (C7 machinery) ──────────────────────────

/-- `find_closing_quote_aux` is the index view of `fq_scan`. -/
theorem fq_bridge : ∀ (s : List Char) (esc : Bool) (i : Nat),
    find_closing_quote_aux s esc i =
      (match fq_scan s esc with
       | QOut.found j => some (i + j)
       | QOut.ended _ => none) := by
  intro s
  induction s with
  | nil => intro esc i; rfl
  | cons c rest ih =>
    intro esc i
    simp only [find_closing_quote_aux, fq_scan]
    split_ifs with h1 h2 h3
    · cases hs : fq_scan rest false <;> simp [ih, hs, qshift] <;> omega
    · cases hs : fq_scan rest true <;> simp [ih, hs, qshift] <;> omega
    · rfl
    · cases hs : fq_scan rest false <;> simp [ih, hs, qshift] <;> omega

/-- The quote scanner across an append composes sequentially. -/
theorem fq_append : ∀ (a b : List Char) (esc : Bool),
    fq_scan (a ++ b) esc =
      (match fq_scan a esc with
       | QOut.found j => QOut.found j
       | QOut.ended e2 => qshift a.length (fq_scan b e2)) := by
  intro a
  induction a with
  | nil =>
    intro b esc
    cases hs : fq_scan b esc <;> simp [fq_scan, qshift, hs]
  | cons c rest ih =>
    intro b esc
    simp only [List.cons_append, fq_scan, List.length_cons, List.append_eq]
    split_ifs with h1 h2 h3
    · rw [ih]
      cases hs : fq_scan rest false with
      | found j => simp [qshift, hs]
      | ended e2 => cases hs2 : fq_scan b e2 <;> simp [qshift, hs, hs2] <;> omega
    · rw [ih]
      cases hs : fq_scan rest true with
      | found j => simp [qshift, hs]
      | ended e2 => cases hs2 : fq_scan b e2 <;> simp [qshift, hs, hs2] <;> omega
    · rfl
    · rw [ih]
      cases hs : fq_scan rest false with
      | found j => simp [qshift, hs]
      | ended e2 => cases hs2 : fq_scan b e2 <;> simp [qshift, hs, hs2] <;> omega

/-- Unshifting a found outcome of the quote scanner. -/
theorem qshift_one_found (q : QOut) (j : Nat) (h : qshift 1 q = QOut.found j) :
    ∃ k, q = QOut.found k ∧ j = k + 1 := by
  cases q with
  | found k =>
    simp only [qshift, QOut.found.injEq] at h
    exact ⟨k, rfl, h.symm⟩
  | ended e => simp [qshift] at h

/-- Unshifting a found outcome of the depth scanner. -/
theorem fshift_one_found (q : FOut) (j : Nat) (h : fshift 1 q = FOut.found j) :
    ∃ k, q = FOut.found k ∧ j = k + 1 := by
  cases q with
  | found k =>
    simp only [fshift, FOut.found.injEq] at h
    exact ⟨k, rfl, h.symm⟩
  | ended d s e => simp [fshift] at h

/-- A found index of the quote scanner lies inside the list. -/
theorem fq_found_lt : ∀ (s : List Char) (esc : Bool) (j : Nat),
    fq_scan s esc = QOut.found j → j < s.length := by
  intro s
  induction s with
  | nil => intro esc j h; exact absurd h (by simp [fq_scan])
  | cons c rest ih =>
    intro esc j h
    simp only [fq_scan] at h
    split_ifs at h with h1 h2 h3
    · obtain ⟨k, hk, rfl⟩ := qshift_one_found _ _ h
      have := ih false k hk
      simp only [List.length_cons]
      omega
    · obtain ⟨k, hk, rfl⟩ := qshift_one_found _ _ h
      have := ih true k hk
      simp only [List.length_cons]
      omega
    · cases h
      simp
    · obtain ⟨k, hk, rfl⟩ := qshift_one_found _ _ h
      have := ih false k hk
      simp only [List.length_cons]
      omega

/-- `find_closing_aux` is the index view of `fc_scan`. -/
theorem fc_bridge (opn cls : Char) : ∀ (s : List Char) (d : Nat) (is e : Bool) (i : Nat),
    find_closing_aux opn cls s d is e i =
      (match fc_scan opn cls s d is e with
       | FOut.found j => some (i + j)
       | FOut.ended _ _ _ => none) := by
  intro s
  induction s with
  | nil => intro d is e i; rfl
  | cons c rest ih =>
    intro d is e i
    simp only [find_closing_aux, fc_scan]
    split_ifs with h1 h2 h3 h4 h5 h6 h7
    · cases hs : fc_scan opn cls rest d is false <;> simp [ih, hs, fshift] <;> omega
    · cases hs : fc_scan opn cls rest d is true <;> simp [ih, hs, fshift] <;> omega
    · cases hs : fc_scan opn cls rest d (!is) false <;> simp [ih, hs, fshift] <;> omega
    · cases hs : fc_scan opn cls rest d is false <;> simp [ih, hs, fshift] <;> omega
    · cases hs : fc_scan opn cls rest (d + 1) is false <;> simp [ih, hs, fshift] <;> omega
    · rfl
    · cases hs : fc_scan opn cls rest (d - 1) is false <;> simp [ih, hs, fshift] <;> omega
    · cases hs : fc_scan opn cls rest d is false <;> simp [ih, hs, fshift] <;> omega

/-- The depth scanner across an append composes sequentially. -/
theorem fc_append (opn cls : Char) : ∀ (a b : List Char) (d : Nat) (is e : Bool),
    fc_scan opn cls (a ++ b) d is e =
      (match fc_scan opn cls a d is e with
       | FOut.found j => FOut.found j
       | FOut.ended d2 s2 e2 => fshift a.length (fc_scan opn cls b d2 s2 e2)) := by
  intro a
  induction a with
  | nil =>
    intro b d is e
    cases hs : fc_scan opn cls b d is e <;> simp [fc_scan, fshift, hs]
  | cons c rest ih =>
    intro b d is e
    simp only [List.cons_append, fc_scan, List.length_cons, List.append_eq]
    split_ifs with h1 h2 h3 h4 h5 h6 h7
    · rw [ih]
      cases hs : fc_scan opn cls rest d is false with
      | found j => simp [fshift, hs]
      | ended d2 s2 e2 => cases hs2 : fc_scan opn cls b d2 s2 e2 <;> simp [fshift, hs, hs2] <;> omega
    · rw [ih]
      cases hs : fc_scan opn cls rest d is true with
      | found j => simp [fshift, hs]
      | ended d2 s2 e2 => cases hs2 : fc_scan opn cls b d2 s2 e2 <;> simp [fshift, hs, hs2] <;> omega
    · rw [ih]
      cases hs : fc_scan opn cls rest d (!is) false with
      | found j => simp [fshift, hs]
      | ended d2 s2 e2 => cases hs2 : fc_scan opn cls b d2 s2 e2 <;> simp [fshift, hs, hs2] <;> omega
    · rw [ih]
      cases hs : fc_scan opn cls rest d is false with
      | found j => simp [fshift, hs]
      | ended d2 s2 e2 => cases hs2 : fc_scan opn cls b d2 s2 e2 <;> simp [fshift, hs, hs2] <;> omega
    · rw [ih]
      cases hs : fc_scan opn cls rest (d + 1) is false with
      | found j => simp [fshift, hs]
      | ended d2 s2 e2 => cases hs2 : fc_scan opn cls b d2 s2 e2 <;> simp [fshift, hs, hs2] <;> omega
    · rfl
    · rw [ih]
      cases hs : fc_scan opn cls rest (d - 1) is false with
      | found j => simp [fshift, hs]
      | ended d2 s2 e2 => cases hs2 : fc_scan opn cls b d2 s2 e2 <;> simp [fshift, hs, hs2] <;> omega
    · rw [ih]
      cases hs : fc_scan opn cls rest d is false with
      | found j => simp [fshift, hs]
      | ended d2 s2 e2 => cases hs2 : fc_scan opn cls b d2 s2 e2 <;> simp [fshift, hs, hs2] <;> omega

/-- A found index of the depth scanner lies inside the list. -/
theorem fc_found_lt (opn cls : Char) : ∀ (s : List Char) (d : Nat) (is e : Bool) (j : Nat),
    fc_scan opn cls s d is e = FOut.found j → j < s.length := by
  intro s
  induction s with
  | nil => intro d is e j h; exact absurd h (by simp [fc_scan])
  | cons c rest ih =>
    intro d is e j h
    simp only [fc_scan] at h
    split_ifs at h with h1 h2 h3 h4 h5 h6 h7 <;>
      first
      | (cases h
         simp)
      | (obtain ⟨k, hk, rfl⟩ := fshift_one_found _ _ h
         have := ih _ _ _ _ hk
         simp only [List.length_cons]
         omega)

/-- While inside a quoted substring, the depth scanner mirrors the quote
scanner: a value with no unescaped quote is passed over without touching the
depth, and the in-string flag survives. -/
theorem fc_scan_instring (opn cls : Char) : ∀ (w : List Char) (d : Nat) (e e2 : Bool),
    fq_scan w e = QOut.ended e2 →
    fc_scan opn cls w d true e = FOut.ended d true e2 := by
  intro w
  induction w with
  | nil =>
    intro d e e2 h
    simp only [fq_scan, QOut.ended.injEq] at h
    rw [h]
    rfl
  | cons c rest ih =>
    intro d e e2 h
    cases e with
    | true =>
      rw [show fq_scan (c :: rest) true = qshift 1 (fq_scan rest false) from by
        simp [fq_scan]] at h
      rw [show fc_scan opn cls (c :: rest) d true true =
          fshift 1 (fc_scan opn cls rest d true false) from by simp [fc_scan]]
      cases hs : fq_scan rest false with
      | found k => rw [hs] at h; exact absurd h (by simp [qshift])
      | ended e3 =>
        rw [hs] at h
        simp only [qshift, QOut.ended.injEq] at h
        rw [ih d false e2 (h ▸ hs)]
        rfl
    | false =>
      by_cases h2 : c = '\\'
      · subst h2
        rw [show fq_scan ('\\' :: rest) false = qshift 1 (fq_scan rest true) from by
          simp [fq_scan]] at h
        rw [show fc_scan opn cls ('\\' :: rest) d true false =
            fshift 1 (fc_scan opn cls rest d true true) from by simp [fc_scan]]
        cases hs : fq_scan rest true with
        | found k => rw [hs] at h; exact absurd h (by simp [qshift])
        | ended e3 =>
          rw [hs] at h
          simp only [qshift, QOut.ended.injEq] at h
          rw [ih d true e2 (h ▸ hs)]
          rfl
      · by_cases h3 : c = '"'
        · subst h3
          rw [show fq_scan ('"' :: rest) false = QOut.found 0 from by simp [fq_scan]] at h
          exact QOut.noConfusion h
        · rw [show fq_scan (c :: rest) false = qshift 1 (fq_scan rest false) from by
            simp [fq_scan, h2, h3]] at h
          rw [show fc_scan opn cls (c :: rest) d true false =
              fshift 1 (fc_scan opn cls rest d true false) from by simp [fc_scan, h2, h3]]
          cases hs : fq_scan rest false with
          | found k => rw [hs] at h; exact absurd h (by simp [qshift])
          | ended e3 =>
            rw [hs] at h
            simp only [qshift, QOut.ended.injEq] at h
            rw [ih d false e2 (h ▸ hs)]
            rfl

/-- Composition of shifts. -/
theorem fshift_fshift (a b : Nat) (q : FOut) :
    fshift a (fshift b q) = fshift (a + b) q := by
  cases q <;> simp [fshift] <;> omega

/-- The depth scanner passes over a complete double-quoted value (with no
unescaped quote inside) as an opaque unit: depth and flags are unchanged and
nothing is found inside it. -/
theorem fc_scan_segment (opn cls : Char) (hopn : opn ≠ '"') (hcls : cls ≠ '"')
    (w s : List Char) (hw : fq_scan w false = QOut.ended false) (d : Nat) :
    fc_scan opn cls ('"' :: (w ++ '"' :: s)) d false false =
      fshift (w.length + 2) (fc_scan opn cls s d false false) := by
  have h1 : fc_scan opn cls ('"' :: (w ++ '"' :: s)) d false false =
      fshift 1 (fc_scan opn cls (w ++ '"' :: s) d true false) := by
    simp [fc_scan]
  rw [h1, fc_append, fc_scan_instring opn cls w d false false hw]
  have h2 : fc_scan opn cls ('"' :: s) d true false =
      fshift 1 (fc_scan opn cls s d false false) := by
    simp [fc_scan]
  show fshift 1 (fshift w.length (fc_scan opn cls ('"' :: s) d true false)) =
    fshift (w.length + 2) (fc_scan opn cls s d false false)
  rw [h2, fshift_fshift, fshift_fshift]
  congr 1
  omega

-- ─── Substring search under same-length replacement (C7 machinery) ───────────

/-- `isPrefixOf` only inspects the first `|n|` characters. -/
theorem isPrefixOf_take : ∀ (n l : List Char),
    n.isPrefixOf l = n.isPrefixOf (l.take n.length) := by
  intro n
  induction n with
  | nil => intro l; cases l <;> rfl
  | cons a t ih =>
    intro l
    cases l with
    | nil => rfl
    | cons b bs => simp [List.isPrefixOf_cons₂, List.take_succ_cons, ih bs]

/-- `findSub` agrees on same-length lists with pointwise-equal occurrence
patterns. -/
theorem findSub_congr : ∀ (l₁ l₂ n : List Char), l₁.length = l₂.length →
    (∀ j, occursAt n l₁ j = occursAt n l₂ j) → findSub l₁ n = findSub l₂ n := by
  intro l₁
  induction l₁ with
  | nil =>
    intro l₂ n hlen _
    cases l₂ with
    | nil => rfl
    | cons b bs => simp at hlen
  | cons a t ih =>
    intro l₂ n hlen hocc
    cases l₂ with
    | nil => simp at hlen
    | cons b bs =>
      have h0 := hocc 0
      simp only [occursAt, List.drop_zero] at h0
      simp only [findSub, h0]
      by_cases hp : n.isPrefixOf (b :: bs)
      · simp [hp]
      · have ht : findSub t n = findSub bs n := by
          refine ih bs n (by simpa using hlen) fun j => ?_
          have := hocc (j + 1)
          simpa only [occursAt, List.drop_succ_cons] using this
        simp [hp, ht]

/-- A successful `findSub` is an occurrence. -/
theorem findSub_occurs : ∀ (l n : List Char) (k : Nat),
    findSub l n = some k → occursAt n l k = true := by
  intro l
  induction l with
  | nil =>
    intro n k h
    simp only [findSub] at h
    by_cases hn : n = []
    · rw [if_pos hn] at h
      cases h
      simp [occursAt, hn]
    · rw [if_neg hn] at h
      exact Option.noConfusion h
  | cons a t ih =>
    intro n k h
    simp only [findSub] at h
    by_cases hp : n.isPrefixOf (a :: t) = true
    · rw [if_pos hp] at h
      cases h
      simpa [occursAt] using hp
    · rw [if_neg hp] at h
      cases hf : findSub t n with
      | none => rw [hf] at h; exact Option.noConfusion h
      | some k2 =>
        rw [hf] at h
        have hk : k = k2 + 1 := by
          have h2 := h.symm
          simpa using h2
        subst hk
        have := ih n k2 hf
        simpa only [occursAt, List.drop_succ_cons] using this

/-- A successful `findSub` of a nonempty needle lies inside the list. -/
theorem findSub_lt_length (l n : List Char) (k : Nat) (hn : n ≠ [])
    (h : findSub l n = some k) : k < l.length := by
  have hocc := findSub_occurs l n k h
  rw [occursAt] at hocc
  by_contra hk
  push_neg at hk
  rw [List.drop_eq_nil_of_le hk] at hocc
  cases n with
  | nil => exact hn rfl
  | cons a t => simp [List.isPrefixOf] at hocc

/-- Length of a `fieldsWith` record. -/
theorem fieldsWith_length (pre w post : List Char) :
    (fieldsWith pre w post).length = pre.length + w.length + post.length + 2 := by
  simp [fieldsWith]
  omega

/-- Dropping within the prefix of a `fieldsWith` record. -/
theorem drop_fieldsWith_le (pre w post : List Char) (m : Nat) (hm : m ≤ pre.length) :
    (fieldsWith pre w post).drop m = pre.drop m ++ '"' :: (w ++ '"' :: post) := by
  rw [fieldsWith, List.drop_append_of_le_length hm]

/-- Dropping past the closing quote of a `fieldsWith` record. -/
theorem drop_fieldsWith_ge (pre w post : List Char) (m : Nat)
    (hm : pre.length + 1 + w.length ≤ m) :
    (fieldsWith pre w post).drop m =
      ('"' :: post).drop (m - (pre.length + 1 + w.length)) := by
  obtain ⟨k, rfl⟩ : ∃ k, m = pre.length + 1 + w.length + k :=
    ⟨m - (pre.length + 1 + w.length), by omega⟩
  have h1 : fieldsWith pre w post = (pre ++ '"' :: w) ++ ('"' :: post) := by
    simp [fieldsWith]
  have h2 : pre.length + 1 + w.length + k = (pre ++ '"' :: w).length + k := by
    simp
    omega
  rw [h1, h2, List.drop_append]
  congr 1
  omega

/-- Outside the contaminated zone, occurrence patterns agree between a record
and its inert-replaced variant. -/
theorem occursAt_fieldsWith_eq (pre w post n : List Char)
    (hz : ∀ k, k < pre.length + 1 + w.length → pre.length < k + n.length →
      occursAt n (fieldsWith pre w post) k = false ∧
      occursAt n (fieldsWith pre (inertOf w) post) k = false) :
    ∀ j, occursAt n (fieldsWith pre w post) j =
      occursAt n (fieldsWith pre (inertOf w) post) j := by
  intro j
  by_cases hj : j < pre.length + 1 + w.length ∧ pre.length < j + n.length
  · rw [(hz j hj.1 hj.2).1, (hz j hj.1 hj.2).2]
  · push_neg at hj
    by_cases hcase : j < pre.length + 1 + w.length
    · have hA : j + n.length ≤ pre.length := by
        have := hj hcase
        omega
      have hjle : j ≤ pre.length := by omega
      have hP : n.length ≤ (pre.drop j).length := by
        simp only [List.length_drop]
        omega
      have htake : ((fieldsWith pre w post).drop j).take n.length =
          ((fieldsWith pre (inertOf w) post).drop j).take n.length := by
        rw [drop_fieldsWith_le pre w post j hjle,
          drop_fieldsWith_le pre (inertOf w) post j hjle]
        rw [List.take_append_of_le_length hP, List.take_append_of_le_length hP]
      rw [occursAt, occursAt, isPrefixOf_take, htake, ← isPrefixOf_take]
    · have hB : pre.length + 1 + w.length ≤ j := by omega
      have hB2 : pre.length + 1 + (inertOf w).length ≤ j := by
        simp only [inertOf, List.length_replicate]
        omega
      rw [occursAt, occursAt, drop_fieldsWith_ge pre w post j hB,
        drop_fieldsWith_ge pre (inertOf w) post j hB2]
      simp [inertOf]

/-- Scalar sibling extraction is unchanged when a properly escaped quoted
value is replaced by an inert run of the same length, provided the sibling's
needle has no occurrence overlapping the value and the scan from the needle
does not reach the value escape-pending. -/
theorem extract_str_inert (pre w post key : List Char)
    (hw : fq_scan w false = QOut.ended false)
    (hz : ∀ k, k < pre.length + 1 + w.length → pre.length < k + (key.length + 2) →
      occursAt (key ++ ['=', '"']) (fieldsWith pre w post) k = false ∧
      occursAt (key ++ ['=', '"']) (fieldsWith pre (inertOf w) post) k = false)
    (hq : ∀ j, j < (fieldsWith pre w post).length →
      findSub (fieldsWith pre w post) (key ++ ['=', '"']) = some j →
      j + key.length + 2 ≤ pre.length →
      fq_scan (pre.drop (j + key.length + 2)) false ≠ QOut.ended true) :
    extract_str (fieldsWith pre w post) key =
      extract_str (fieldsWith pre (inertOf w) post) key := by
  have hlen : (key ++ ['=', '"']).length = key.length + 2 := by simp
  have hocc := occursAt_fieldsWith_eq pre w post (key ++ ['=', '"']) fun k hk1 hk2 => by
    rw [hlen] at hk2
    exact hz k hk1 hk2
  have hfind : findSub (fieldsWith pre w post) (key ++ ['=', '"']) =
      findSub (fieldsWith pre (inertOf w) post) (key ++ ['=', '"']) :=
    findSub_congr _ _ _ (by simp [fieldsWith_length, inertOf]) hocc
  simp only [extract_str]
  rw [← hfind]
  cases ho : findSub (fieldsWith pre w post) (key ++ ['=', '"']) with
  | none => rfl
  | some j =>
    have hoccj := findSub_occurs _ _ _ ho
    have hjlt : j < (fieldsWith pre w post).length :=
      findSub_lt_length _ _ _ (by simp) ho
    have hnonzone : ¬(j < pre.length + 1 + w.length ∧
        pre.length < j + (key.length + 2)) := by
      rintro ⟨hk1, hk2⟩
      have hfz := (hz j hk1 hk2).1
      rw [hfz] at hoccj
      exact Bool.noConfusion hoccj
    have hidx : j + (key ++ ['=', '"']).length = j + key.length + 2 := by
      rw [hlen]
      omega
    show (match find_closing_quote
          ((fieldsWith pre w post).drop (j + (key ++ ['=', '"']).length)) with
        | none => none
        | some e => some (unescape
            (((fieldsWith pre w post).drop (j + (key ++ ['=', '"']).length)).take e)))
      = (match find_closing_quote
          ((fieldsWith pre (inertOf w) post).drop (j + (key ++ ['=', '"']).length)) with
        | none => none
        | some e => some (unescape
            (((fieldsWith pre (inertOf w) post).drop (j + (key ++ ['=', '"']).length)).take e)))
    rw [hidx]
    by_cases hA : j + key.length + 2 ≤ pre.length
    · have hdrop1 : (fieldsWith pre w post).drop (j + key.length + 2) =
          pre.drop (j + key.length + 2) ++ '"' :: (w ++ '"' :: post) :=
        drop_fieldsWith_le _ _ _ _ hA
      have hdrop2 : (fieldsWith pre (inertOf w) post).drop (j + key.length + 2) =
          pre.drop (j + key.length + 2) ++ '"' :: (inertOf w ++ '"' :: post) :=
        drop_fieldsWith_le _ _ _ _ hA
      rw [hdrop1, hdrop2, find_closing_quote, find_closing_quote,
        fq_bridge, fq_bridge, fq_append, fq_append]
      cases hp : fq_scan (pre.drop (j + key.length + 2)) false with
      | found j2 =>
        have hj2 := fq_found_lt _ _ _ hp
        simp only [qshift, Nat.zero_add]
        rw [List.take_append_of_le_length (Nat.le_of_lt hj2),
          List.take_append_of_le_length (Nat.le_of_lt hj2)]
      | ended e2 =>
        cases e2 with
        | false =>
          have hq1 : fq_scan ('"' :: (w ++ '"' :: post)) false = QOut.found 0 := by
            simp [fq_scan]
          have hq2 : fq_scan ('"' :: (inertOf w ++ '"' :: post)) false = QOut.found 0 := by
            simp [fq_scan]
          simp only [hq1, hq2, qshift, Nat.zero_add]
          rw [List.take_left, List.take_left]
        | true => exact absurd hp (hq j hjlt ho hA)
    · have hB : pre.length + 1 + w.length ≤ j := by omega
      have hdropeq : (fieldsWith pre w post).drop (j + key.length + 2) =
          (fieldsWith pre (inertOf w) post).drop (j + key.length + 2) := by
        rw [drop_fieldsWith_ge _ _ _ _ (by omega),
          drop_fieldsWith_ge _ _ _ _ (by simp only [inertOf, List.length_replicate]; omega)]
        simp [inertOf]
      rw [hdropeq]

/-- Block sibling extraction is unchanged when a properly escaped quoted
value is replaced by an inert run of the same length, provided the sibling's
needle has no occurrence overlapping the value and, when the needle precedes
the value, the depth scan closes before reaching it. -/
theorem extract_block_inert (pre w post key : List Char)
    (hw : fq_scan w false = QOut.ended false)
    (hz : ∀ k, k < pre.length + 1 + w.length → pre.length < k + (key.length + 2) →
      occursAt (key ++ ['=', '\x7b']) (fieldsWith pre w post) k = false ∧
      occursAt (key ++ ['=', '\x7b']) (fieldsWith pre (inertOf w) post) k = false)
    (hb : ∀ j, j < (fieldsWith pre w post).length →
      findSub (fieldsWith pre w post) (key ++ ['=', '\x7b']) = some j →
      j + key.length + 2 ≤ pre.length →
      isFound (fc_scan '\x7b' '\x7d' (pre.drop (j + key.length + 2)) 1 false false) = true) :
    extract_block (fieldsWith pre w post) key =
      extract_block (fieldsWith pre (inertOf w) post) key := by
  have hlen : (key ++ ['=', '\x7b']).length = key.length + 2 := by simp
  have hocc := occursAt_fieldsWith_eq pre w post (key ++ ['=', '\x7b']) fun k hk1 hk2 => by
    rw [hlen] at hk2
    exact hz k hk1 hk2
  have hfind : findSub (fieldsWith pre w post) (key ++ ['=', '\x7b']) =
      findSub (fieldsWith pre (inertOf w) post) (key ++ ['=', '\x7b']) :=
    findSub_congr _ _ _ (by simp [fieldsWith_length, inertOf]) hocc
  simp only [extract_block]
  rw [← hfind]
  cases ho : findSub (fieldsWith pre w post) (key ++ ['=', '\x7b']) with
  | none => rfl
  | some j =>
    have hoccj := findSub_occurs _ _ _ ho
    have hjlt : j < (fieldsWith pre w post).length :=
      findSub_lt_length _ _ _ (by simp) ho
    have hnonzone : ¬(j < pre.length + 1 + w.length ∧
        pre.length < j + (key.length + 2)) := by
      rintro ⟨hk1, hk2⟩
      have hfz := (hz j hk1 hk2).1
      rw [hfz] at hoccj
      exact Bool.noConfusion hoccj
    have hidx : j + (key ++ ['=', '\x7b']).length = j + key.length + 2 := by
      rw [hlen]
      omega
    show (match find_closing_brace
          ((fieldsWith pre w post).drop (j + (key ++ ['=', '\x7b']).length)) with
        | none => none
        | some e => some
            (((fieldsWith pre w post).drop (j + (key ++ ['=', '\x7b']).length)).take e))
      = (match find_closing_brace
          ((fieldsWith pre (inertOf w) post).drop (j + (key ++ ['=', '\x7b']).length)) with
        | none => none
        | some e => some
            (((fieldsWith pre (inertOf w) post).drop (j + (key ++ ['=', '\x7b']).length)).take e))
    rw [hidx]
    by_cases hA : j + key.length + 2 ≤ pre.length
    · have hdrop1 : (fieldsWith pre w post).drop (j + key.length + 2) =
          pre.drop (j + key.length + 2) ++ '"' :: (w ++ '"' :: post) :=
        drop_fieldsWith_le _ _ _ _ hA
      have hdrop2 : (fieldsWith pre (inertOf w) post).drop (j + key.length + 2) =
          pre.drop (j + key.length + 2) ++ '"' :: (inertOf w ++ '"' :: post) :=
        drop_fieldsWith_le _ _ _ _ hA
      rw [hdrop1, hdrop2, find_closing_brace, find_closing_brace,
        find_closing, find_closing, fc_bridge, fc_bridge, fc_append, fc_append]
      cases hp : fc_scan '\x7b' '\x7d' (pre.drop (j + key.length + 2)) 1 false false with
      | found j2 =>
        have hj2 := fc_found_lt _ _ _ _ _ _ _ hp
        simp only [fshift, Nat.zero_add]
        rw [List.take_append_of_le_length (Nat.le_of_lt hj2),
          List.take_append_of_le_length (Nat.le_of_lt hj2)]
      | ended d2 s2 e2 =>
        have hbf := hb j hjlt ho hA
        rw [hp] at hbf
        exact Bool.noConfusion hbf
    · have hB : pre.length + 1 + w.length ≤ j := by omega
      have hdropeq : (fieldsWith pre w post).drop (j + key.length + 2) =
          (fieldsWith pre (inertOf w) post).drop (j + key.length + 2) := by
        rw [drop_fieldsWith_ge _ _ _ _ (by omega),
          drop_fieldsWith_ge _ _ _ _ (by simp only [inertOf, List.length_replicate]; omega)]
        simp [inertOf]
      rw [hdropeq]

/-- The brace fallback of `extract_list` is exactly `extract_block`. -/
theorem extract_list_unfold (fields key : List Char) :
    extract_list fields key =
      (match findSub fields (key ++ ['=', '[']) with
       | none => extract_block fields key
       | some start =>
         match find_closing_bracket (fields.drop (start + key.length + 2)) with
         | none => extract_block fields key
         | some e => some ((fields.drop (start + key.length + 2)).take e)) := by
  simp only [extract_list, extract_block]
  have hlen : (key ++ ['=', '\x7b']).length = key.length + 2 := by simp
  rw [hlen]
  simp only [Nat.add_assoc]

/-- List sibling extraction (bracket form with brace fallback) is unchanged
under inert replacement of a properly escaped quoted value, given the
needle-occurrence and scan provisos for both the bracket and the brace
needles. -/
theorem extract_list_inert (pre w post key : List Char)
    (hw : fq_scan w false = QOut.ended false)
    (hzB : ∀ k, k < pre.length + 1 + w.length → pre.length < k + (key.length + 2) →
      occursAt (key ++ ['=', '\x7b']) (fieldsWith pre w post) k = false ∧
      occursAt (key ++ ['=', '\x7b']) (fieldsWith pre (inertOf w) post) k = false)
    (hb : ∀ j, j < (fieldsWith pre w post).length →
      findSub (fieldsWith pre w post) (key ++ ['=', '\x7b']) = some j →
      j + key.length + 2 ≤ pre.length →
      isFound (fc_scan '\x7b' '\x7d' (pre.drop (j + key.length + 2)) 1 false false) = true)
    (hzL : ∀ k, k < pre.length + 1 + w.length → pre.length < k + (key.length + 2) →
      occursAt (key ++ ['=', '[']) (fieldsWith pre w post) k = false ∧
      occursAt (key ++ ['=', '[']) (fieldsWith pre (inertOf w) post) k = false)
    (hl : ∀ j, j < (fieldsWith pre w post).length →
      findSub (fieldsWith pre w post) (key ++ ['=', '[']) = some j →
      j + key.length + 2 ≤ pre.length →
      isFound (fc_scan '[' ']' (pre.drop (j + key.length + 2)) 1 false false) = true) :
    extract_list (fieldsWith pre w post) key =
      extract_list (fieldsWith pre (inertOf w) post) key := by
  have hblock := extract_block_inert pre w post key hw hzB hb
  have hlenL : (key ++ ['=', '[']).length = key.length + 2 := by simp
  have hoccL := occursAt_fieldsWith_eq pre w post (key ++ ['=', '[']) fun k hk1 hk2 => by
    rw [hlenL] at hk2
    exact hzL k hk1 hk2
  have hfindL : findSub (fieldsWith pre w post) (key ++ ['=', '[']) =
      findSub (fieldsWith pre (inertOf w) post) (key ++ ['=', '[']) :=
    findSub_congr _ _ _ (by simp [fieldsWith_length, inertOf]) hoccL
  rw [extract_list_unfold, extract_list_unfold, ← hfindL]
  cases ho : findSub (fieldsWith pre w post) (key ++ ['=', '[']) with
  | none => exact hblock
  | some j =>
    have hoccj := findSub_occurs _ _ _ ho
    have hjlt : j < (fieldsWith pre w post).length :=
      findSub_lt_length _ _ _ (by simp) ho
    have hnonzone : ¬(j < pre.length + 1 + w.length ∧
        pre.length < j + (key.length + 2)) := by
      rintro ⟨hk1, hk2⟩
      have hfz := (hzL j hk1 hk2).1
      rw [hfz] at hoccj
      exact Bool.noConfusion hoccj
    show (match find_closing_bracket
          ((fieldsWith pre w post).drop (j + key.length + 2)) with
        | none => extract_block (fieldsWith pre w post) key
        | some e => some
            (((fieldsWith pre w post).drop (j + key.length + 2)).take e))
      = (match find_closing_bracket
          ((fieldsWith pre (inertOf w) post).drop (j + key.length + 2)) with
        | none => extract_block (fieldsWith pre (inertOf w) post) key
        | some e => some
            (((fieldsWith pre (inertOf w) post).drop (j + key.length + 2)).take e))
    by_cases hA : j + key.length + 2 ≤ pre.length
    · have hdrop1 : (fieldsWith pre w post).drop (j + key.length + 2) =
          pre.drop (j + key.length + 2) ++ '"' :: (w ++ '"' :: post) :=
        drop_fieldsWith_le _ _ _ _ hA
      have hdrop2 : (fieldsWith pre (inertOf w) post).drop (j + key.length + 2) =
          pre.drop (j + key.length + 2) ++ '"' :: (inertOf w ++ '"' :: post) :=
        drop_fieldsWith_le _ _ _ _ hA
      rw [hdrop1, hdrop2, find_closing_bracket, find_closing_bracket,
        find_closing, find_closing, fc_bridge, fc_bridge, fc_append, fc_append]
      cases hp : fc_scan '[' ']' (pre.drop (j + key.length + 2)) 1 false false with
      | found j2 =>
        have hj2 := fc_found_lt _ _ _ _ _ _ _ hp
        simp only [fshift, Nat.zero_add]
        rw [List.take_append_of_le_length (Nat.le_of_lt hj2),
          List.take_append_of_le_length (Nat.le_of_lt hj2)]
      | ended d2 s2 e2 =>
        have hbf := hl j hjlt ho hA
        rw [hp] at hbf
        exact Bool.noConfusion hbf
    · have hB : pre.length + 1 + w.length ≤ j := by omega
      have hdropeq : (fieldsWith pre w post).drop (j + key.length + 2) =
          (fieldsWith pre (inertOf w) post).drop (j + key.length + 2) := by
        rw [drop_fieldsWith_ge _ _ _ _ (by omega),
          drop_fieldsWith_ge _ _ _ _ (by simp only [inertOf, List.length_replicate]; omega)]
        simp [inertOf]
      rw [hdropeq]
      cases hfc : find_closing_bracket
          ((fieldsWith pre (inertOf w) post).drop (j + key.length + 2)) with
      | none => exact hblock
      | some e => rfl

/-- C7 counterexample: the quoted value `frame=\x7b` is properly escaped and
contains a literal `\x7b`, yet extraction of the sibling block field `frame`
fails on the record while succeeding on the inert-replaced record — the
needle search finds `frame=\x7b` inside the quoted value first and the depth
scan from there never closes. -/
theorem nested_needle_counterexample :
    fq_scan (strL "frame=\x7b") false = QOut.ended false
    ∧ extract_block
        (fieldsWith (strL "a=") (strL "frame=\x7b") (strL ",frame=\x7bb=\"1\"\x7d"))
        (strL "frame") = none
    ∧ extract_block
        (fieldsWith (strL "a=") (inertOf (strL "frame=\x7b")) (strL ",frame=\x7bb=\"1\"\x7d"))
        (strL "frame") = some (strL "b=\"1\"") :=
  ⟨by decide, by decide, by decide⟩

/-- C7 (amended): sibling field extraction over a record
`pre ++ '"' :: w ++ '"' :: post` whose quoted value `w` is properly escaped
(no unescaped quote, no trailing escape) equals extraction over the record
with `w` replaced by an inert run of the same length — for scalar, block and
list fields — provided the sibling's search needle has no occurrence
overlapping the value region, and a needle occurrence lying before the value
has its value scan close before reaching the value (for the scalar form:
not reach the value escape-pending). -/
theorem extraction_inert_value_spec (pre w post key : List Char)
    (hw : fq_scan w false = QOut.ended false) :
    ((∀ k, k < pre.length + 1 + w.length → pre.length < k + (key.length + 2) →
        occursAt (key ++ ['=', '"']) (fieldsWith pre w post) k = false ∧
        occursAt (key ++ ['=', '"']) (fieldsWith pre (inertOf w) post) k = false) →
      (∀ j, j < (fieldsWith pre w post).length →
        findSub (fieldsWith pre w post) (key ++ ['=', '"']) = some j →
        j + key.length + 2 ≤ pre.length →
        fq_scan (pre.drop (j + key.length + 2)) false ≠ QOut.ended true) →
      extract_str (fieldsWith pre w post) key =
        extract_str (fieldsWith pre (inertOf w) post) key)
    ∧ ((∀ k, k < pre.length + 1 + w.length → pre.length < k + (key.length + 2) →
        occursAt (key ++ ['=', '\x7b']) (fieldsWith pre w post) k = false ∧
        occursAt (key ++ ['=', '\x7b']) (fieldsWith pre (inertOf w) post) k = false) →
      (∀ j, j < (fieldsWith pre w post).length →
        findSub (fieldsWith pre w post) (key ++ ['=', '\x7b']) = some j →
        j + key.length + 2 ≤ pre.length →
        isFound (fc_scan '\x7b' '\x7d' (pre.drop (j + key.length + 2)) 1 false false) = true) →
      extract_block (fieldsWith pre w post) key =
        extract_block (fieldsWith pre (inertOf w) post) key)
    ∧ ((∀ k, k < pre.length + 1 + w.length → pre.length < k + (key.length + 2) →
        occursAt (key ++ ['=', '\x7b']) (fieldsWith pre w post) k = false ∧
        occursAt (key ++ ['=', '\x7b']) (fieldsWith pre (inertOf w) post) k = false) →
      (∀ j, j < (fieldsWith pre w post).length →
        findSub (fieldsWith pre w post) (key ++ ['=', '\x7b']) = some j →
        j + key.length + 2 ≤ pre.length →
        isFound (fc_scan '\x7b' '\x7d' (pre.drop (j + key.length + 2)) 1 false false) = true) →
      (∀ k, k < pre.length + 1 + w.length → pre.length < k + (key.length + 2) →
        occursAt (key ++ ['=', '[']) (fieldsWith pre w post) k = false ∧
        occursAt (key ++ ['=', '[']) (fieldsWith pre (inertOf w) post) k = false) →
      (∀ j, j < (fieldsWith pre w post).length →
        findSub (fieldsWith pre w post) (key ++ ['=', '[']) = some j →
        j + key.length + 2 ≤ pre.length →
        isFound (fc_scan '[' ']' (pre.drop (j + key.length + 2)) 1 false false) = true) →
      extract_list (fieldsWith pre w post) key =
        extract_list (fieldsWith pre (inertOf w) post) key) :=
  ⟨fun hz hq => extract_str_inert pre w post key hw hz hq,
   fun hz hb => extract_block_inert pre w post key hw hz hb,
   fun hzB hb hzL hl => extract_list_inert pre w post key hw hzB hb hzL hl⟩

/-- Witness for C7 at a concrete record whose quoted value holds a literal
`\x7b`, `,`, `\x7d` and an escaped quote: scalar extraction of the sibling
before the value and of the sibling after it, and block/list extraction of
the `frame` sibling, are all unchanged under inert replacement. -/
theorem extraction_inert_value_spec_witness :
    extract_str
        (fieldsWith (strL "num=\"9\",val=") (strL "\x7b,\x7d\\\"a")
          (strL ",frame=\x7baddr=\"0x1\"\x7d,thread-id=\"7\"")) (strL "num") =
      extract_str
        (fieldsWith (strL "num=\"9\",val=") (inertOf (strL "\x7b,\x7d\\\"a"))
          (strL ",frame=\x7baddr=\"0x1\"\x7d,thread-id=\"7\"")) (strL "num")
    ∧ extract_str
        (fieldsWith (strL "num=\"9\",val=") (strL "\x7b,\x7d\\\"a")
          (strL ",frame=\x7baddr=\"0x1\"\x7d,thread-id=\"7\"")) (strL "thread-id") =
      extract_str
        (fieldsWith (strL "num=\"9\",val=") (inertOf (strL "\x7b,\x7d\\\"a"))
          (strL ",frame=\x7baddr=\"0x1\"\x7d,thread-id=\"7\"")) (strL "thread-id")
    ∧ extract_block
        (fieldsWith (strL "num=\"9\",val=") (strL "\x7b,\x7d\\\"a")
          (strL ",frame=\x7baddr=\"0x1\"\x7d,thread-id=\"7\"")) (strL "frame") =
      extract_block
        (fieldsWith (strL "num=\"9\",val=") (inertOf (strL "\x7b,\x7d\\\"a"))
          (strL ",frame=\x7baddr=\"0x1\"\x7d,thread-id=\"7\"")) (strL "frame")
    ∧ extract_list
        (fieldsWith (strL "num=\"9\",val=") (strL "\x7b,\x7d\\\"a")
          (strL ",frame=\x7baddr=\"0x1\"\x7d,thread-id=\"7\"")) (strL "frame") =
      extract_list
        (fieldsWith (strL "num=\"9\",val=") (inertOf (strL "\x7b,\x7d\\\"a"))
          (strL ",frame=\x7baddr=\"0x1\"\x7d,thread-id=\"7\"")) (strL "frame") :=
  ⟨(extraction_inert_value_spec (strL "num=\"9\",val=") (strL "\x7b,\x7d\\\"a")
      (strL ",frame=\x7baddr=\"0x1\"\x7d,thread-id=\"7\"") (strL "num")
      (by decide)).1 (by decide) (by decide),
   (extraction_inert_value_spec (strL "num=\"9\",val=") (strL "\x7b,\x7d\\\"a")
      (strL ",frame=\x7baddr=\"0x1\"\x7d,thread-id=\"7\"") (strL "thread-id")
      (by decide)).1 (by decide) (by decide),
   (extraction_inert_value_spec (strL "num=\"9\",val=") (strL "\x7b,\x7d\\\"a")
      (strL ",frame=\x7baddr=\"0x1\"\x7d,thread-id=\"7\"") (strL "frame")
      (by decide)).2.1 (by decide) (by decide),
   (extraction_inert_value_spec (strL "num=\"9\",val=") (strL "\x7b,\x7d\\\"a")
      (strL ",frame=\x7baddr=\"0x1\"\x7d,thread-id=\"7\"") (strL "frame")
      (by decide)).2.2 (by decide) (by decide) (by decide) (by decide)⟩

end Gdb
